import Mathlib

/-
Verification of the Matrix-Maze core algorithms against their specification.

The Rust source (src/app/src-tauri/src) is shallowly embedded:
* machine integers (`usize`, `u64`) become `Nat` with explicit `% 2 ^ 64`
  where wrapping matters;
* `f64` values whose role in the verified properties is exact (dyadic
  rationals produced by halving, LCG-derived integers, coordinates,
  distances compared against integer thresholds) are modelled as `ℚ`;
  the two genuinely irrational operations (`sqrt` in the dither sampler)
  are modelled over `ℝ`;
* loops become structural recursion on an explicit iteration budget that
  is provably (or concretely checkably) at least the number of
  iterations the Rust loop performs;
* `Vec<Vec<bool>>` becomes `List (List Bool)` with the same row-major
  indexing, out-of-range reads defaulting like `Maze::is_wall` (walls).
-/

namespace MatrixMaze

/-! ## Bayer pattern table (src/dither/bayer.rs) -/

/-- The fixed 4-point base pattern of `generate_bayer_points`
(`vec![(0.0,0.0),(0.5,0.5),(0.5,0.0),(0.0,0.5)]`). -/
def bayerBase : List (ℚ × ℚ) := [(0, 0), (1/2, 1/2), (1/2, 0), (0, 1/2)]

/-- One iteration of the subdivision loop body of `generate_bayer_points`:
for each of the three non-origin base offsets (indices 1..3 of the point
list, which always start with the base pattern), append a translated copy
of the points present before this iteration, scaled by `0.5^(r+1)`.
The Rust loop reads `points[i]` and `points[j]` only at indices below the
length captured before the pushes, so reading from the old list is exact. -/
def bayerStep (r : ℕ) (pts : List (ℚ × ℚ)) : List (ℚ × ℚ) :=
  let offset : ℚ := (1/2) ^ (r + 1)
  pts ++ (List.range 3).flatMap (fun i =>
    let ov := pts.getD (i + 1) (0, 0)
    pts.map (fun p => (p.1 + ov.1 * offset, p.2 + ov.2 * offset)))

/-- The loop `for r in 0..k` of `generate_bayer_points`, iterating
`bayerStep` with `r = r0, r0+1, ...` for `k` iterations. -/
def bayerIter : ℕ → ℕ → List (ℚ × ℚ) → List (ℚ × ℚ)
  | 0, _, pts => pts
  | k + 1, r, pts => bayerIter k (r + 1) (bayerStep r pts)

/-- `generate_bayer_points(recursion)`: the loop runs for
`recursion.saturating_sub(1)` iterations (`Nat` subtraction saturates
exactly like `usize::saturating_sub`). -/
def generateBayerPoints (recursion : ℕ) : List (ℚ × ℚ) :=
  bayerIter (recursion - 1) 0 bayerBase

/-- `BayerPatterns::get_level`: levels 0..3 hold `generate_bayer_points`
of that level (precomputed in `BayerPatterns::new`), any other level
defaults to the finest table. -/
def getLevelPoints (level : ℕ) : List (ℚ × ℚ) :=
  match level with
  | 0 => generateBayerPoints 0
  | 1 => generateBayerPoints 1
  | 2 => generateBayerPoints 2
  | 3 => generateBayerPoints 3
  | _ => generateBayerPoints 3

/-! ## Dither level selection (src/dither/pattern.rs, select_level) -/

/-- `DitherPattern::select_level(normalized_dist)`: computes
`level_float = (1 - d) * 3`, takes its floor as the raw level (the Rust
`as usize` cast saturates negative values at 0, modelled by `Int.toNat`),
and returns `(level.min(3), level_float - level)`.  All `f64` operations
involved are exact on the dyadic inputs relevant to the claims. -/
def selectLevel (d : ℚ) : ℕ × ℚ :=
  let lf : ℚ := (1 - d) * 3
  let level : ℕ := (Rat.floor lf).toNat
  (min level 3, lf - (level : ℚ))

/-! ## Dither pattern sampling (src/dither/pattern.rs, sample_pattern) -/

/-- Per-axis toroidally wrapped offset of `sample_pattern`:
`(u - p + 0.5).rem_euclid(1.0) - 0.5`.  `f64::rem_euclid(1.0)` of a
finite value is its fractional part in `[0, 1)`, i.e. `Int.fract`. -/
noncomputable def wrapDist (u p : ℝ) : ℝ := Int.fract (u - p + 1/2) - 1/2

/-- `DitherPattern::sample_pattern(uv, level, dot_count)`.  The Rust code
folds the minimum distance starting from `f64::INFINITY` over the first
`max_dots` points; on the (nonempty in this branch) list this equals
folding `min` from the first element.  `2.4` is the dyadic-free literal
`12/5` (its `f64` rounding does not matter for the bound claims). -/
noncomputable def samplePattern (uv : ℝ × ℝ) (level dotCount : ℕ) : ℝ :=
  let pts := getLevelPoints level
  let maxDots := min dotCount pts.length
  if maxDots = 0 then 0
  else
    let dotArea : ℝ := (1/2) / (maxDots : ℝ)
    let dotRadius : ℝ := Real.sqrt (dotArea / Real.pi)
    let ds := (pts.take maxDots).map (fun p =>
      let vx := wrapDist uv.1 (p.1 : ℝ)
      let vy := wrapDist uv.2 (p.2 : ℝ)
      Real.sqrt (vx * vx + vy * vy))
    let minDist : ℝ :=
      match ds with
      | [] => 0
      | d :: rest => rest.foldl min d
    let normalized := minDist / (dotRadius * (12/5))
    min (max (1 - normalized) 0) 1

/-! ## Maze grid representation (src/maze.rs, data model) -/

/-- Read a cell of a row-major `Vec<Vec<bool>>` grid: `cells[y][x]`.
Out-of-range reads default to `true` (wall); the generated grids are
always exactly `height × width` so the default is never consulted. -/
def cellAt (g : List (List Bool)) (x y : ℕ) : Bool := (g.getD y []).getD x true

/-- Write a cell of the grid: `cells[y][x] = b`. -/
def setCell (g : List (List Bool)) (x y : ℕ) (b : Bool) : List (List Bool) :=
  g.set y ((g.getD y []).set x b)

/-- The `Maze` struct: `cells` is `true` for wall, `start` and `exit`
are `(x, y)` positions. -/
structure MazeS where
  width : ℕ
  height : ℕ
  cells : List (List Bool)
  start : ℕ × ℕ
  exit : ℕ × ℕ
deriving DecidableEq

/-- `Maze::is_wall(x, y)`: out-of-range coordinates count as walls. -/
def MazeS.isWall (m : MazeS) (x y : ℕ) : Bool :=
  if m.width ≤ x ∨ m.height ≤ y then true else cellAt m.cells x y

/-! ## Raycaster (src/raycast.rs) -/

/-- `RaycastResult` with `f64` fields as exact rationals. -/
structure RaycastResult where
  distance : ℚ
  wallType : ℕ
  hitX : ℚ
  hitY : ℚ
  passedExit : Bool
  exitThresholdDist : Option ℚ
deriving DecidableEq

/-- Rust `f64 as i32`: truncation toward zero.  The source's cast
saturates at ±2^31, which this unbounded-ℤ truncation does not model,
so the two agree exactly for `|q| < 2^31` and diverge beyond (where the
real `cast_ray` can even produce negative distances from a hugely
negative initial side distance); the distance-bound claim therefore
restricts ray origins to the faithful range `[0, 2^31)`. -/
def ratTrunc (q : ℚ) : ℤ := if q < 0 then -Rat.floor (-q) else Rat.floor q

/-- The exact value of the `f64` literal `1e30` used by `cast_ray` as the
effective delta distance for a zero direction component. -/
def f64Big : ℚ := 1000000000000000019884624838656

/-- The fixed per-cast environment of `cast_ray`: origin, direction
(`dx = cos angle`, `dy = sin angle` — the embedding takes the direction
components directly, which covers every angle since every `f64`
cosine/sine value is a rational number), maze, distance cap and the
optional exit point. -/
structure RayEnv where
  startX : ℚ
  startY : ℚ
  dx : ℚ
  dy : ℚ
  maze : MazeS
  maxDistance : ℚ
  exitX : Option ℚ
  exitY : Option ℚ
deriving DecidableEq

/-- `delta_dist_x = if dx == 0.0 { 1e30 } else { (1.0 / dx).abs() }`. -/
def RayEnv.deltaDistX (e : RayEnv) : ℚ := if e.dx = 0 then f64Big else |1 / e.dx|

/-- `delta_dist_y`, symmetric to `deltaDistX`. -/
def RayEnv.deltaDistY (e : RayEnv) : ℚ := if e.dy = 0 then f64Big else |1 / e.dy|

/-- `step_x`: −1 for `dx < 0.0`, else +1. -/
def RayEnv.stepX (e : RayEnv) : ℤ := if e.dx < 0 then -1 else 1

/-- `step_y`: −1 for `dy < 0.0`, else +1. -/
def RayEnv.stepY (e : RayEnv) : ℤ := if e.dy < 0 then -1 else 1

/-- The mutable loop state of `cast_ray`'s DDA loop. -/
structure RayState where
  mapX : ℤ
  mapY : ℤ
  sideDistX : ℚ
  sideDistY : ℚ
  side : ℕ
  passedExit : Bool
  exitThresholdDist : Option ℚ
deriving DecidableEq

/-- The state on entry to the DDA loop (lines 25–55 of raycast.rs):
`map = (start as i32)`, initial side distances from the fractional
position, `side = 0`, no exit passage recorded. -/
def castInit (e : RayEnv) : RayState :=
  let mapX := ratTrunc e.startX
  let mapY := ratTrunc e.startY
  { mapX := mapX
    mapY := mapY
    sideDistX :=
      if e.dx < 0 then (e.startX - (mapX : ℚ)) * e.deltaDistX
      else ((mapX : ℚ) + 1 - e.startX) * e.deltaDistX
    sideDistY :=
      if e.dy < 0 then (e.startY - (mapY : ℚ)) * e.deltaDistY
      else ((mapY : ℚ) + 1 - e.startY) * e.deltaDistY
    side := 0
    passedExit := false
    exitThresholdDist := none }

/-- One DDA advance (lines 67–75): step along the axis with the smaller
accumulated side distance.  `mapX`/`mapY` advance over unbounded ℤ
where the source uses (release-mode wrapping) i32 addition; the two
agree while the coordinates stay inside the i32 range, which is why the
distance-bound claim restricts ray origins to `[0, 2^31)` so that the
loop's entry state is faithful. -/
def rayStep (e : RayEnv) (s : RayState) : RayState :=
  if s.sideDistX < s.sideDistY then
    { s with sideDistX := s.sideDistX + e.deltaDistX, mapX := s.mapX + e.stepX, side := 0 }
  else
    { s with sideDistY := s.sideDistY + e.deltaDistY, mapY := s.mapY + e.stepY, side := 1 }

/-- Exit-threshold bookkeeping (lines 77–107): when both exit
coordinates are configured and the ray just transitioned into the exit
cell, compute the parametric distance to the exit point along the more
aligned axis and record it (with `passed_exit = true`) if positive. -/
def rayExitCheck (e : RayEnv) (prevX prevY : ℤ) (s : RayState) : RayState :=
  match e.exitX, e.exitY with
  | some ex, some ey =>
    if (prevX ≠ ratTrunc ex ∨ prevY ≠ ratTrunc ey) ∧
        s.mapX = ratTrunc ex ∧ s.mapY = ratTrunc ey then
      let thr : ℚ :=
        if |e.dx| > |e.dy| then (ex - e.startX) / e.dx
        else if e.dy ≠ 0 then (ey - e.startY) / e.dy
        else if s.side = 0 then s.sideDistX - e.deltaDistX
        else s.sideDistY - e.deltaDistY
      if 0 < thr then
        { s with passedExit := true, exitThresholdDist := some thr }
      else s
    else s
  | _, _ => s

/-- Out-of-bounds test of lines 110 and 123 (`map_x < 0 || map_y < 0 ||
map_x as usize >= width || map_y as usize >= height`; the `as usize`
wrap of a negative value is already caught by the sign checks). -/
def rayOob (e : RayEnv) (mx my : ℤ) : Bool :=
  decide (mx < 0 ∨ my < 0 ∨ (e.maze.width : ℤ) ≤ mx ∨ (e.maze.height : ℤ) ≤ my)

/-- Lines 127–135: the destination cell counts as a hit when it is a
wall and is not the configured exit cell. -/
def rayHitWall (e : RayEnv) (s : RayState) : Bool :=
  let isExit :=
    match e.exitX, e.exitY with
    | some ex, some ey => decide (s.mapX = ratTrunc ex ∧ s.mapY = ratTrunc ey)
    | _, _ => false
  !isExit && e.maze.isWall s.mapX.toNat s.mapY.toNat

/-- The early return of lines 109–121 (ray passed the exit and stepped
out of bounds): distance is the recorded threshold, `max_distance` if
none, wall type `0` by convention. -/
def rayEarlyReturn (e : RayEnv) (s : RayState) : RaycastResult :=
  let fd := s.exitThresholdDist.getD e.maxDistance
  { distance := fd
    wallType := 0
    hitX := e.startX + e.dx * fd
    hitY := e.startY + e.dy * fd
    passedExit := true
    exitThresholdDist := s.exitThresholdDist }

/-- The shared tail of `cast_ray` (lines 139–163): perpendicular wall
distance on the last stepped axis, clamped by `min` to `max_distance`,
wall type from the stepped axis and step direction. -/
def rayFinish (e : RayEnv) (s : RayState) : RaycastResult :=
  let perp := if s.side = 0 then s.sideDistX - e.deltaDistX else s.sideDistY - e.deltaDistY
  let dist := min perp e.maxDistance
  { distance := dist
    wallType :=
      if s.side = 0 then (if 0 < e.stepX then 3 else 2)
      else (if 0 < e.stepY then 1 else 0)
    hitX := e.startX + e.dx * dist
    hitY := e.startY + e.dy * dist
    passedExit := s.passedExit
    exitThresholdDist := s.exitThresholdDist }

/-- The DDA loop (`while !hit`, lines 61–137) with an explicit iteration
budget.  Each iteration advances one grid cell, checks the exit
threshold, then returns early (open sky), breaks out of bounds (shared
tail) or stops at a wall (shared tail); `none` means the budget was
exhausted, which `castRay` makes impossible by supplying a budget larger
than the number of in-bounds cells the fixed-direction walk can visit. -/
def castLoop (e : RayEnv) : ℕ → RayState → Option RaycastResult
  | 0, _ => none
  | n + 1, s =>
    let s2 := rayExitCheck e s.mapX s.mapY (rayStep e s)
    if rayOob e s2.mapX s2.mapY then
      if s2.passedExit then some (rayEarlyReturn e s2) else some (rayFinish e s2)
    else if rayHitWall e s2 then some (rayFinish e s2)
    else castLoop e n s2

/-- Remaining in-bounds cells of the walk starting at state `s`: the
DDA moves `mapX` only in direction `stepX` and `mapY` only in direction
`stepY`, so this quantity falls by exactly one per iteration and the
loop exits before it reaches zero. -/
def rayMeasure (e : RayEnv) (s : RayState) : ℕ :=
  (if e.dx < 0 then s.mapX + 1 else (e.maze.width : ℤ) - s.mapX).toNat +
  (if e.dy < 0 then s.mapY + 1 else (e.maze.height : ℤ) - s.mapY).toNat

/-- `cast_ray(start_x, start_y, angle, maze, max_distance, exit_x,
exit_y)` with the direction passed as `(dx, dy) = (cos angle, sin
angle)`.  The iteration budget `rayMeasure + 1` is proved sufficient
(claim C7), so the result is always `some`. -/
def rayEnvOf (startX startY dx dy : ℚ) (maze : MazeS) (maxDistance : ℚ)
    (exitX exitY : Option ℚ) : RayEnv :=
  ⟨startX, startY, dx, dy, maze, maxDistance, exitX, exitY⟩

def castRay (startX startY dx dy : ℚ) (maze : MazeS) (maxDistance : ℚ)
    (exitX exitY : Option ℚ) : Option RaycastResult :=
  castLoop (rayEnvOf startX startY dx dy maze maxDistance exitX exitY)
    (rayMeasure (rayEnvOf startX startY dx dy maze maxDistance exitX exitY)
      (castInit (rayEnvOf startX startY dx dy maze maxDistance exitX exitY)) + 1)
    (castInit (rayEnvOf startX startY dx dy maze maxDistance exitX exitY))

/-- A 5×5 grid with every cell open; used as a concrete raycast input. -/
def mazeOpen5 : MazeS :=
  ⟨5, 5, List.replicate 5 (List.replicate 5 false), (1, 1), (4, 0)⟩

/-- A 3×3 grid whose only open cell is the center; used as a concrete
raycast input. -/
def mazeBox3 : MazeS :=
  ⟨3, 3, [[true, true, true], [true, false, true], [true, true, true]], (1, 1), (1, 0)⟩

/-- The invariant that `passed_exit` and `exit_threshold_dist` carry
through the raycast loop: they are set together, and only with a
positive threshold. -/
def peInv (s : RayState) : Prop :=
  (s.passedExit = true ↔ s.exitThresholdDist.isSome = true) ∧
  ∀ t, s.exitThresholdDist = some t → 0 < t

/-! ## Maze generation (src/maze.rs, Maze::new / Maze::generate) -/

/-- The LCG step used throughout generation:
`seed = seed.wrapping_mul(1103515245).wrapping_add(12345)` on `u64`. -/
def lcgNext (s : ℕ) : ℕ := (s * 1103515245 + 12345) % 2 ^ 64

/-- Squared Euclidean distance between two cells.  The source compares
`sqrt(d2) > 3.0` and `sqrt(d2) < sqrt(m2)` on `f64`; for the small
integer squared distances arising here the correctly rounded square
root preserves those comparisons, so they are exactly `9 < d2` and
`d2 < m2`. -/
def distSq (a b : ℕ × ℕ) : ℤ :=
  ((a.1 : ℤ) - b.1) ^ 2 + ((a.2 : ℤ) - b.2) ^ 2

/-- Exit selection (lines 54–79): a random edge, then a random non-corner
position along it; returns the exit and the advanced seed. -/
def pickExit (w h seed : ℕ) : (ℕ × ℕ) × ℕ :=
  let s1 := lcgNext seed
  let s2 := lcgNext s1
  if s1 % 4 = 0 then ((1 + s2 % (w - 2), 0), s2)
  else if s1 % 4 = 1 then ((w - 1, 1 + s2 % (h - 2)), s2)
  else if s1 % 4 = 2 then ((1 + s2 % (w - 2), h - 1), s2)
  else ((0, 1 + s2 % (h - 2)), s2)

/-- One sample of the start-selection loop body (lines 87–90): two LCG
steps giving the x and y coordinates of an interior candidate. -/
def sampleStart (w h seed : ℕ) : (ℕ × ℕ) × ℕ :=
  let s1 := lcgNext seed
  let x := 1 + s1 % (w - 2)
  let s2 := lcgNext s1
  let y := 1 + s2 % (h - 2)
  ((x, y), s2)

/-- The start-selection loop (lines 84–99), indexed by
`attemptsLeft = 51 - attempts`: a sample is accepted when its distance
to the exit exceeds 3.0, or unconditionally once `attempts > 50` (the
`attemptsLeft = 0` case). -/
def selectStartGo (w h : ℕ) (ex : ℕ × ℕ) : ℕ → ℕ → (ℕ × ℕ) × ℕ
  | 0, seed => sampleStart w h seed
  | k + 1, seed =>
    let r := sampleStart w h seed
    if 9 < distSq r.1 ex then r else selectStartGo w h ex k r.2

/-- Start selection as invoked by `generate`. -/
def selectStart (w h : ℕ) (ex : ℕ × ℕ) (seed : ℕ) : (ℕ × ℕ) × ℕ :=
  selectStartGo w h ex 51 seed

/-- Seed advance of one start-selection sample. -/
def nextStartSeed (w h seed : ℕ) : ℕ := (sampleStart w h seed).2

/-- Seed state after `i` samples of the start-selection loop. -/
def startSeedAfter (w h seed i : ℕ) : ℕ := (nextStartSeed w h)^[i] seed

/-- The `i`-th candidate the start-selection loop samples from `seed`
(`startCandidate w h seed 0` is the first sample). -/
def startCandidate (w h seed i : ℕ) : ℕ × ℕ :=
  (sampleStart w h (startSeedAfter w h seed i)).1

/-- `get_unvisited_neighbors` (lines 194–212), in source order:
west, east, north, south, each two cells away. -/
def getUnvisitedNeighbors (w h : ℕ) (pos : ℕ × ℕ) (visited : List (ℕ × ℕ)) :
    List (ℕ × ℕ) :=
  (if 2 < pos.1 ∧ (pos.1 - 2, pos.2) ∉ visited then [(pos.1 - 2, pos.2)] else []) ++
  (if pos.1 < w - 2 ∧ (pos.1 + 2, pos.2) ∉ visited then [(pos.1 + 2, pos.2)] else []) ++
  (if 2 < pos.2 ∧ (pos.1, pos.2 - 2) ∉ visited then [(pos.1, pos.2 - 2)] else []) ++
  (if pos.2 < h - 2 ∧ (pos.1, pos.2 + 2) ∉ visited then [(pos.1, pos.2 + 2)] else [])

/-- `remove_wall_between` (lines 214–220): clear the midpoint cell. -/
def removeWallBetween (g : List (List Bool)) (a b : ℕ × ℕ) : List (List Bool) :=
  setCell g ((a.1 + b.1) / 2) ((a.2 + b.2) / 2) false

/-- The exit-proximity test of lines 111–113: the popped cell is the
exit, directly above it, or directly to its left. -/
def exitTouchCheck (ex c : ℕ × ℕ) : Bool :=
  decide (c = ex ∨ (c.1 = ex.1 ∧ 0 < ex.2 ∧ c.2 = ex.2 - 1) ∨
    (0 < ex.1 ∧ c.1 = ex.1 - 1 ∧ c.2 = ex.2))

/-- The mutable state of the DFS carving loop. -/
structure DfsState where
  grid : List (List Bool)
  visited : List (ℕ × ℕ)
  stack : List (ℕ × ℕ)
  seed : ℕ
  exitReached : Bool
deriving DecidableEq

/-- The carving step of a DFS iteration with unvisited neighbors
(lines 120–127): advance the LCG, pick a neighbor, clear the interposed
wall and the neighbor, mark it visited, and push current and next. -/
def dfsCarve (w h : ℕ) (s : DfsState) (current : ℕ × ℕ) (rest : List (ℕ × ℕ))
    (er : Bool) : DfsState :=
  let s1 := lcgNext s.seed
  let nbrs := getUnvisitedNeighbors w h current s.visited
  let nxt := nbrs.getD (s1 % nbrs.length) (0, 0)
  { grid := setCell (removeWallBetween s.grid current nxt) nxt.1 nxt.2 false
    visited := nxt :: s.visited
    stack := nxt :: current :: rest
    seed := s1
    exitReached := er }

/-- The carving loop `while let Some(current) = stack.pop()`
(lines 109–129) with an explicit iteration budget.  Each iteration
either pops an exhausted cell or carves to a fresh neighbor; the budget
`2*w*h + 2` supplied by `generate` exceeds the iteration count, since
every iteration pops once and at most `w*h` iterations push (each adds
a never-before-visited in-bounds cell). -/
def dfsGo (w h : ℕ) (ex : ℕ × ℕ) : ℕ → DfsState → DfsState
  | 0, s => s
  | k + 1, s =>
    match s.stack with
    | [] => s
    | current :: rest =>
      if getUnvisitedNeighbors w h current s.visited = [] then
        dfsGo w h ex k
          { s with stack := rest,
                   exitReached := s.exitReached || exitTouchCheck ex current }
      else
        dfsGo w h ex k
          (dfsCarve w h s current rest (s.exitReached || exitTouchCheck ex current))

/-- The interior scan order of the fallback search (lines 139–148):
`for y in 1..height-1 { for x in 1..width-1 }`. -/
def interiorCells (w h : ℕ) : List (ℕ × ℕ) :=
  (List.range' 1 (h - 2)).flatMap fun y => (List.range' 1 (w - 2)).map fun x => (x, y)

/-- One step of the nearest-visited-cell scan: open visited cells with a
strictly smaller distance replace the current best (`none` models the
initial `f64::MAX`), so the first minimum in scan order is kept. -/
def scanStep (g : List (List Bool)) (visited : List (ℕ × ℕ)) (ex : ℕ × ℕ)
    (acc : Option ℤ × (ℕ × ℕ)) (c : ℕ × ℕ) : Option ℤ × (ℕ × ℕ) :=
  if cellAt g c.1 c.2 = false ∧ c ∈ visited then
    match acc.1 with
    | none => (some (distSq c ex), c)
    | some m => if distSq c ex < m then (some (distSq c ex), c) else acc
  else acc

/-- The fallback nearest-visited-cell search (lines 136–149), starting
from the default `nearest = (1, 1)`. -/
def findNearest (g : List (List Bool)) (visited : List (ℕ × ℕ)) (ex : ℕ × ℕ)
    (w h : ℕ) : ℕ × ℕ :=
  ((interiorCells w h).foldl (scanStep g visited ex) (none, (1, 1))).2

/-- One step of the connection path (lines 153–165): move toward the
exit along x first, then along y. -/
def pathNext (ex c : ℕ × ℕ) : ℕ × ℕ :=
  if c.1 < ex.1 then (c.1 + 1, c.2)
  else if ex.1 < c.1 then (c.1 - 1, c.2)
  else if c.2 < ex.2 then (c.1, c.2 + 1)
  else if ex.2 < c.2 then (c.1, c.2 - 1)
  else c

/-- The connection-path loop `while current != exit` (lines 151–167),
clearing each cell it moves onto.  The `pathNext ex c = c` case mirrors
the source's `else break`, which is unreachable while `c ≠ exit`; the
budget `w + h` supplied by `generate` exceeds the Manhattan distance
walked. -/
def pathGo (ex : ℕ × ℕ) : ℕ → ℕ × ℕ → List (List Bool) → List (List Bool)
  | 0, _, g => g
  | k + 1, c, g =>
    if c = ex then g
    else
      let c2 := pathNext ex c
      if c2 = c then g
      else pathGo ex k c2 (setCell g c2.1 c2.2 false)

/-- The opening carved next to the exit (lines 174–191), keyed on which
edge the exit sits on. -/
def clearExitAdjacent (w h : ℕ) (ex : ℕ × ℕ) (g : List (List Bool)) :
    List (List Bool) :=
  if ex.2 = 0 then
    (if ex.2 + 1 < h then setCell g ex.1 (ex.2 + 1) false else g)
  else if ex.1 = w - 1 then
    (if 0 < ex.1 then setCell g (ex.1 - 1) ex.2 false else g)
  else if ex.2 = h - 1 then
    (if 0 < ex.2 then setCell g ex.1 (ex.2 - 1) false else g)
  else if ex.1 = 0 then
    (if ex.1 + 1 < w then setCell g (ex.1 + 1) ex.2 false else g)
  else g

/-- The state handed to the carving loop (lines 101–107): all-wall grid
with the start cleared, start visited and pushed. -/
def dfsInitState (w h : ℕ) (start : ℕ × ℕ) (seed : ℕ) : DfsState :=
  { grid := setCell (List.replicate h (List.replicate w true)) start.1 start.2 false
    visited := [start]
    stack := [start]
    seed := seed
    exitReached := false }

/-- The DFS state after the carving loop of `Maze::generate`, for the
given dimensions and top-level seed (exit and start selection included).
The budget `2*w*h + 2` exceeds the loop's iteration count; concrete
evaluations can also check completion via an empty final `stack`. -/
def mazeDfsState (w h seed : ℕ) : DfsState :=
  dfsGo w h (pickExit w h seed).1 (2 * (w * h) + 2)
    (dfsInitState w h
      (selectStart w h (pickExit w h seed).1 (pickExit w h seed).2).1
      (selectStart w h (pickExit w h seed).1 (pickExit w h seed).2).2)

/-- The grid transformations after the carving loop (lines 131–191):
clear the exit, connect it to the nearest visited cell when the
traversal never touched it, clear the exit again, and open the interior
cell adjacent to the exit. -/
def postDfs (w h : ℕ) (ex : ℕ × ℕ) (d : DfsState) : List (List Bool) :=
  let g1 := setCell d.grid ex.1 ex.2 false
  let g2 :=
    if d.exitReached then g1
    else pathGo ex (w + h) (findNearest g1 d.visited ex w h) g1
  clearExitAdjacent w h ex (setCell g2 ex.1 ex.2 false)

/-- `Maze::generate` (lines 28–192) as a function of the dimensions and
the 64-bit seed the source derives from time/counter/thread entropy
(modelled as an arbitrary input): pick the exit, pick the start, carve
by randomized DFS from the start, then run the exit-connection fixups. -/
def generate (w h seed : ℕ) : MazeS :=
  { width := w
    height := h
    cells := postDfs w h (pickExit w h seed).1 (mazeDfsState w h seed)
    start := (selectStart w h (pickExit w h seed).1 (pickExit w h seed).2).1
    exit := (pickExit w h seed).1 }

/-- `Maze::new(width, height)`: construct and generate (the struct's
placeholder `start`/`exit` defaults are overwritten by `generate`). -/
def mazeNew (w h seed : ℕ) : MazeS := generate w h seed

/-! ## Flood-fill reachability (the spec's connectivity notion) -/

/-- 4-adjacency of grid cells. -/
def AdjCell (a b : ℕ × ℕ) : Prop :=
  (a.1 = b.1 ∧ (a.2 = b.2 + 1 ∨ b.2 = a.2 + 1)) ∨
  (a.2 = b.2 ∧ (a.1 = b.1 + 1 ∨ b.1 = a.1 + 1))

/-- One flood-fill step: move to a 4-adjacent non-wall cell. -/
def FloodStep (g : List (List Bool)) (a b : ℕ × ℕ) : Prop :=
  AdjCell a b ∧ cellAt g b.1 b.2 = false

/-- Flood-fill reachability over non-wall cells. -/
def Reaches (g : List (List Bool)) (a b : ℕ × ℕ) : Prop :=
  Relation.ReflTransGen (FloodStep g) a b

/-- The grid is a well-formed `height × width` matrix (true of every
grid `generate` manipulates). -/
def GridWF (g : List (List Bool)) (w h : ℕ) : Prop :=
  g.length = h ∧ ∀ row ∈ g, row.length = w

/-- Invariant of the DFS carving loop: the grid stays well-formed, every
visited cell is in bounds away from the top/left border, open, and
reachable from the start, the stack holds visited cells, the start is
visited, and the `exit_reached` flag is only set after popping a cell
that passes the exit-proximity test. -/
def DfsInv (w h : ℕ) (start ex : ℕ × ℕ) (s : DfsState) : Prop :=
  GridWF s.grid w h ∧
  (∀ c ∈ s.visited, 1 ≤ c.1 ∧ c.1 < w ∧ 1 ≤ c.2 ∧ c.2 < h) ∧
  (∀ c ∈ s.visited, cellAt s.grid c.1 c.2 = false ∧ Reaches s.grid start c) ∧
  (∀ c ∈ s.stack, c ∈ s.visited) ∧
  start ∈ s.visited ∧
  (s.exitReached = true → ∃ c ∈ s.visited, exitTouchCheck ex c = true)

/-! ## Claim C8: the sample value is always in [0, 1] -/

/-- C8: `sample_pattern` returns a value in `[0, 1]` for every UV in ℝ²,
every level in `0..=3` and every dot count, including `dot_count = 0`
(which takes the early-return-0 branch), because the final value is
clamped into `[0, 1]`. -/
theorem c8_sample_pattern_bounded (uv : ℝ × ℝ) (level dotCount : ℕ)
    (_ : level ≤ 3) :
    0 ≤ samplePattern uv level dotCount ∧ samplePattern uv level dotCount ≤ 1 := by
  unfold samplePattern
  by_cases h : min dotCount (getLevelPoints level).length = 0
  · simp [h]
  · simp only [h, if_false]
    constructor
    · exact le_min (le_max_right _ _) zero_le_one
    · exact min_le_right _ _

/-- C8 witness: the bound instantiated at `uv = (0,0)`, `level = 0`,
`dot_count = 0`. -/
theorem c8_sample_pattern_bounded_witness :
    0 ≤ samplePattern (0, 0) 0 0 ∧ samplePattern (0, 0) 0 0 ≤ 1 :=
  c8_sample_pattern_bounded (0, 0) 0 0 (by decide)

/-! ## Claim C2: Bayer point counts -/

/-- C2 (code_bug evidence): the subdivision loop of
`generate_bayer_points` runs `recursion.saturating_sub(1)` times, so
levels 0 and 1 both produce 4 points and levels 2 and 3 produce 16 and
64; the spec (and the unit tests `test_bayer_level_1/2/3` in bayer.rs,
which assert 16/64/256) require `4^(level+1)`. -/
theorem c2_bayer_point_counts :
    (generateBayerPoints 0).length = 4 ∧
    (generateBayerPoints 1).length = 4 ∧
    (generateBayerPoints 2).length = 16 ∧
    (generateBayerPoints 3).length = 64 ∧
    (getLevelPoints 0).length = 4 ∧
    (getLevelPoints 1).length = 4 ∧
    (getLevelPoints 2).length = 16 ∧
    (getLevelPoints 3).length = 64 := by
  refine ⟨?_, ?_, ?_, ?_, ?_, ?_, ?_, ?_⟩ <;> rfl

/-! ## Claim C9: prefix stability of the Bayer levels -/

/-- C9: for every level `l ∈ {0,1,2}` the point sequence of level `l` is
an initial segment of the point sequence of level `l + 1`: taking the
first `length` points of the finer table recovers the coarser table
exactly, so subdividing never alters the position or order of earlier
points. -/
theorem c9_bayer_level_prefix_stable (l : ℕ) (hl : l ≤ 2) :
    (getLevelPoints (l + 1)).take (getLevelPoints l).length = getLevelPoints l := by
  interval_cases l <;> with_unfolding_all decide

/-- C9 witness: the property instantiated at level 0. -/
theorem c9_bayer_level_prefix_stable_witness :
    (getLevelPoints 1).take (getLevelPoints 0).length = getLevelPoints 0 :=
  c9_bayer_level_prefix_stable 0 (by decide)

/-! ## Claim C5: level selection boundaries -/

/-- C5 counterexample: the claim asserts `select_level(1.0) = (0, 1.0)`,
but the code computes `level_float = 0`, `level = 0`, `interp = 0`,
returning `(0, 0.0)`. -/
theorem c5_select_level_counterexample :
    selectLevel 1 ≠ (0, 1) := by
  with_unfolding_all decide

/-- C5 (amended): `select_level(0.0) = (3, 0.0)`,
`select_level(1.0) = (0, 0.0)` (not `(0, 1.0)`), and for every input in
`[0, 1]` the returned level lies in `0..=3`. -/
theorem c5_select_level_boundaries :
    selectLevel 0 = (3, 0) ∧ selectLevel 1 = (0, 0) ∧
    ∀ d : ℚ, 0 ≤ d → d ≤ 1 → (selectLevel d).1 ≤ 3 := by
  refine ⟨by with_unfolding_all decide, by with_unfolding_all decide, ?_⟩
  intro d _ _
  exact min_le_right _ _

/-- C5 witness: the boundary facts together with the level bound
instantiated at the in-range input `1/2`. -/
theorem c5_select_level_boundaries_witness :
    (selectLevel (1/2)).1 ≤ 3 :=
  c5_select_level_boundaries.2.2 (1/2) (by norm_num) (by norm_num)

/-! ## Raycaster helper lemmas -/

theorem ratFloor_eq_intFloor (q : ℚ) : Rat.floor q = ⌊q⌋ := rfl

theorem ratTrunc_eq_floor_of_nonneg {q : ℚ} (h : 0 ≤ q) : ratTrunc q = ⌊q⌋ := by
  unfold ratTrunc
  rw [if_neg (not_lt.mpr h), ratFloor_eq_intFloor]

theorem rayExitCheck_preserves (e : RayEnv) (px py : ℤ) (s : RayState) :
    (rayExitCheck e px py s).mapX = s.mapX ∧
    (rayExitCheck e px py s).mapY = s.mapY ∧
    (rayExitCheck e px py s).side = s.side ∧
    (rayExitCheck e px py s).sideDistX = s.sideDistX ∧
    (rayExitCheck e px py s).sideDistY = s.sideDistY := by
  unfold rayExitCheck
  rcases e.exitX with _ | ex <;> rcases e.exitY with _ | ey <;>
    first
      | exact ⟨rfl, rfl, rfl, rfl, rfl⟩
      | (dsimp only; split_ifs <;> simp)

theorem deltaDistX_nonneg (e : RayEnv) : 0 ≤ e.deltaDistX := by
  unfold RayEnv.deltaDistX
  split
  · norm_num [f64Big]
  · exact abs_nonneg _

theorem deltaDistY_nonneg (e : RayEnv) : 0 ≤ e.deltaDistY := by
  unfold RayEnv.deltaDistY
  split
  · norm_num [f64Big]
  · exact abs_nonneg _

theorem peInv_castInit (e : RayEnv) : peInv (castInit e) := by
  constructor
  · simp [castInit]
  · intro t ht
    simp [castInit] at ht

theorem peInv_rayStep (e : RayEnv) (s : RayState) (h : peInv s) :
    peInv (rayStep e s) := by
  unfold rayStep
  split <;> exact h

theorem peInv_rayExitCheck (e : RayEnv) (px py : ℤ) (s : RayState) (h : peInv s) :
    peInv (rayExitCheck e px py s) := by
  unfold rayExitCheck
  rcases e.exitX with _ | ex <;> rcases e.exitY with _ | ey <;> try exact h
  dsimp only
  split_ifs <;>
    first
      | exact h
      | (refine ⟨by simp, ?_⟩
         intro t ht
         simp only [Option.some.injEq] at ht
         subst ht
         assumption)

theorem rayStep_shape (e : RayEnv) (s : RayState) :
    (s.sideDistX < s.sideDistY ∧
      rayStep e s = { s with sideDistX := s.sideDistX + e.deltaDistX,
                             mapX := s.mapX + e.stepX, side := 0 }) ∨
    (¬ s.sideDistX < s.sideDistY ∧
      rayStep e s = { s with sideDistY := s.sideDistY + e.deltaDistY,
                             mapY := s.mapY + e.stepY, side := 1 }) := by
  unfold rayStep
  by_cases h : s.sideDistX < s.sideDistY
  · exact Or.inl ⟨h, by rw [if_pos h]⟩
  · exact Or.inr ⟨h, by rw [if_neg h]⟩

theorem rayOob_false_bounds (e : RayEnv) (mx my : ℤ)
    (h : rayOob e mx my = false) :
    0 ≤ mx ∧ mx < (e.maze.width : ℤ) ∧ 0 ≤ my ∧ my < (e.maze.height : ℤ) := by
  unfold rayOob at h
  simp only [decide_eq_false_iff_not] at h
  push_neg at h
  omega

/-- The loop measure falls by one whenever an iteration hands an
in-bounds state to the next iteration. -/
theorem rayMeasure_decrease (e : RayEnv) (s : RayState)
    (h : rayOob e (rayExitCheck e s.mapX s.mapY (rayStep e s)).mapX
          (rayExitCheck e s.mapX s.mapY (rayStep e s)).mapY = false) :
    rayMeasure e (rayExitCheck e s.mapX s.mapY (rayStep e s)) < rayMeasure e s := by
  obtain ⟨hmx, hmy, -, -, -⟩ := rayExitCheck_preserves e s.mapX s.mapY (rayStep e s)
  unfold rayMeasure
  rw [hmx, hmy] at h ⊢
  obtain ⟨hb1, hb2, hb3, hb4⟩ := rayOob_false_bounds e _ _ h
  rcases rayStep_shape e s with ⟨-, hshape⟩ | ⟨-, hshape⟩ <;>
    rw [hshape] at hb1 hb2 hb3 hb4 ⊢ <;>
    by_cases hdx : e.dx < 0 <;> by_cases hdy : e.dy < 0 <;>
    simp only [RayEnv.stepX, RayEnv.stepY, hdx, hdy, if_true, if_false, ite_true,
      ite_false] at hb1 hb2 hb3 hb4 ⊢ <;>
    omega

/-- Claim C7 core: with a budget exceeding the measure, the loop always
returns a result. -/
theorem castLoop_isSome (e : RayEnv) :
    ∀ n s, rayMeasure e s < n → (castLoop e n s).isSome = true := by
  intro n
  induction n with
  | zero => intro s h; omega
  | succ n ih =>
    intro s hm
    rw [castLoop]
    by_cases hoob : rayOob e (rayExitCheck e s.mapX s.mapY (rayStep e s)).mapX
        (rayExitCheck e s.mapX s.mapY (rayStep e s)).mapY = true
    · simp only [hoob, if_true]
      split <;> simp
    · rw [Bool.not_eq_true] at hoob
      simp only [hoob, Bool.false_eq_true, if_false]
      by_cases hhit : rayHitWall e (rayExitCheck e s.mapX s.mapY (rayStep e s)) = true
      · simp [hhit]
      · rw [Bool.not_eq_true] at hhit
        simp only [hhit, Bool.false_eq_true, if_false]
        exact ih _ (lt_of_lt_of_le (rayMeasure_decrease e s hoob) (by omega))

/-! ## Claim C7: cast_ray always terminates with a result -/

/-- C7: `cast_ray` terminates and returns a `RaycastResult` for every
origin, direction, maze, distance cap and exit configuration: the DDA
loop exits after finitely many steps because each iteration moves the
current cell one step along x or y in a fixed direction and the grid
bounds are finite.  In the embedding the loop budget `rayMeasure + 1`
is always sufficient, so the fuel-exhaustion case is unreachable. -/
theorem c7_cast_ray_terminates (startX startY dx dy : ℚ) (maze : MazeS)
    (maxDistance : ℚ) (exitX exitY : Option ℚ) :
    (castRay startX startY dx dy maze maxDistance exitX exitY).isSome = true := by
  unfold castRay
  exact castLoop_isSome _ _ _ (Nat.lt_succ_self _)

/-! ## Claim C10: passed_exit ↔ exit_threshold_dist, with positive threshold -/

theorem castLoop_peInv (e : RayEnv) :
    ∀ n s r, peInv s → castLoop e n s = some r →
      ((r.passedExit = true ↔ r.exitThresholdDist.isSome = true) ∧
        ∀ t, r.exitThresholdDist = some t → 0 < t) := by
  intro n
  induction n with
  | zero => intro s r _ h; simp [castLoop] at h
  | succ n ih =>
    intro s r hinv h
    rw [castLoop] at h
    set s2 := rayExitCheck e s.mapX s.mapY (rayStep e s) with hs2
    have hinv2 : peInv s2 := peInv_rayExitCheck e _ _ _ (peInv_rayStep e s hinv)
    by_cases hoob : rayOob e s2.mapX s2.mapY = true
    · simp only [hoob, if_true] at h
      by_cases hpe : s2.passedExit = true
      · simp only [hpe, if_true, Option.some.injEq] at h
        subst h
        unfold rayEarlyReturn
        refine ⟨by simpa using hinv2.1.mp hpe, ?_⟩
        intro t ht
        exact hinv2.2 t ht
      · rw [Bool.not_eq_true] at hpe
        simp only [hpe, Bool.false_eq_true, if_false, Option.some.injEq] at h
        subst h
        unfold rayFinish
        exact ⟨hinv2.1, hinv2.2⟩
    · rw [Bool.not_eq_true] at hoob
      simp only [hoob, Bool.false_eq_true, if_false] at h
      by_cases hhit : rayHitWall e s2 = true
      · simp only [hhit, if_true, Option.some.injEq] at h
        subst h
        unfold rayFinish
        exact ⟨hinv2.1, hinv2.2⟩
      · rw [Bool.not_eq_true] at hhit
        simp only [hhit, Bool.false_eq_true, if_false] at h
        exact ih s2 r hinv2 h

/-- C10: in every result of `cast_ray`, `passed_exit` is true exactly
when `exit_threshold_dist` is `Some`, and a recorded threshold is
strictly positive (the two fields are only ever written together, under
the guard `threshold_dist > 0.0`). -/
theorem c10_passed_exit_iff_threshold (startX startY dx dy : ℚ) (maze : MazeS)
    (maxDistance : ℚ) (exitX exitY : Option ℚ) (r : RaycastResult)
    (h : castRay startX startY dx dy maze maxDistance exitX exitY = some r) :
    (r.passedExit = true ↔ r.exitThresholdDist.isSome = true) ∧
    ∀ t, r.exitThresholdDist = some t → 0 < t := by
  unfold castRay at h
  exact castLoop_peInv _ _ _ r (peInv_castInit _) h

/-- C10 witness: a concrete cast in the boxed 3×3 maze, due east from
its center, hitting the east wall; the claim's hypotheses hold at this
input and the invariant follows from the theorem. -/
theorem c10_passed_exit_iff_threshold_witness :
    ((⟨1/2, 3, 2, 3/2, false, none⟩ : RaycastResult).passedExit = true ↔
      (⟨1/2, 3, 2, 3/2, false, none⟩ : RaycastResult).exitThresholdDist.isSome = true) ∧
    ∀ t, (⟨1/2, 3, 2, 3/2, false, none⟩ : RaycastResult).exitThresholdDist = some t → 0 < t :=
  c10_passed_exit_iff_threshold (3/2) (3/2) 1 0 mazeBox3 10 none none
    ⟨1/2, 3, 2, 3/2, false, none⟩ (by with_unfolding_all decide)

/-! ## Claim C3: distance bounds -/

theorem rayAfterStep_facts (e : RayEnv) (s : RayState) :
    ((rayExitCheck e s.mapX s.mapY (rayStep e s)).side = 0 ∧
      (rayExitCheck e s.mapX s.mapY (rayStep e s)).sideDistX = s.sideDistX + e.deltaDistX ∧
      (rayExitCheck e s.mapX s.mapY (rayStep e s)).sideDistY = s.sideDistY) ∨
    ((rayExitCheck e s.mapX s.mapY (rayStep e s)).side = 1 ∧
      (rayExitCheck e s.mapX s.mapY (rayStep e s)).sideDistX = s.sideDistX ∧
      (rayExitCheck e s.mapX s.mapY (rayStep e s)).sideDistY = s.sideDistY + e.deltaDistY) := by
  obtain ⟨-, -, hside, hsx, hsy⟩ := rayExitCheck_preserves e s.mapX s.mapY (rayStep e s)
  rcases rayStep_shape e s with ⟨-, hsh⟩ | ⟨-, hsh⟩
  · left
    rw [hside, hsx, hsy, hsh]
    exact ⟨rfl, rfl, rfl⟩
  · right
    rw [hside, hsx, hsy, hsh]
    exact ⟨rfl, rfl, rfl⟩

theorem rayFinish_dist_bounds (e : RayEnv) (s2 : RayState) (hmd : 0 ≤ e.maxDistance)
    (hperp : 0 ≤ (if s2.side = 0 then s2.sideDistX - e.deltaDistX
      else s2.sideDistY - e.deltaDistY)) :
    0 ≤ (rayFinish e s2).distance ∧
    (rayFinish e s2).distance ≤
      max e.maxDistance ((rayFinish e s2).exitThresholdDist.getD 0) := by
  unfold rayFinish
  exact ⟨le_min hperp hmd, le_trans (min_le_right _ _) (le_max_left _ _)⟩

theorem rayEarlyReturn_dist_bounds (e : RayEnv) (s2 : RayState)
    (hpe : s2.passedExit = true) (hinv : peInv s2) :
    0 ≤ (rayEarlyReturn e s2).distance ∧
    (rayEarlyReturn e s2).distance ≤
      max e.maxDistance ((rayEarlyReturn e s2).exitThresholdDist.getD 0) := by
  have hsome := hinv.1.mp hpe
  rcases ht : s2.exitThresholdDist with _ | t
  · rw [ht] at hsome
    simp at hsome
  · have hpos := hinv.2 t ht
    unfold rayEarlyReturn
    rw [ht]
    simp only [Option.getD_some]
    exact ⟨le_of_lt hpos, le_max_right _ _⟩

theorem castLoop_dist (e : RayEnv) (hmd : 0 ≤ e.maxDistance) :
    ∀ n s r, peInv s → 0 ≤ s.sideDistX → 0 ≤ s.sideDistY → castLoop e n s = some r →
      0 ≤ r.distance ∧ r.distance ≤ max e.maxDistance (r.exitThresholdDist.getD 0) := by
  intro n
  induction n with
  | zero => intro s r _ _ _ h; simp [castLoop] at h
  | succ n ih =>
    intro s r hinv hsx hsy h
    rw [castLoop] at h
    have hinv2 : peInv (rayExitCheck e s.mapX s.mapY (rayStep e s)) :=
      peInv_rayExitCheck e _ _ _ (peInv_rayStep e s hinv)
    have hperp : 0 ≤ (if (rayExitCheck e s.mapX s.mapY (rayStep e s)).side = 0
        then (rayExitCheck e s.mapX s.mapY (rayStep e s)).sideDistX - e.deltaDistX
        else (rayExitCheck e s.mapX s.mapY (rayStep e s)).sideDistY - e.deltaDistY) := by
      rcases rayAfterStep_facts e s with ⟨h0, h1, -⟩ | ⟨h0, -, h2⟩
      · rw [h0, h1]
        simpa using hsx
      · rw [h0, h2]
        rw [if_neg one_ne_zero]
        simpa using hsy
    by_cases hoob : rayOob e (rayExitCheck e s.mapX s.mapY (rayStep e s)).mapX
        (rayExitCheck e s.mapX s.mapY (rayStep e s)).mapY = true
    · simp only [hoob, if_true] at h
      by_cases hpe : (rayExitCheck e s.mapX s.mapY (rayStep e s)).passedExit = true
      · simp only [hpe, if_true, Option.some.injEq] at h
        subst h
        exact rayEarlyReturn_dist_bounds e _ hpe hinv2
      · rw [Bool.not_eq_true] at hpe
        simp only [hpe, Bool.false_eq_true, if_false, Option.some.injEq] at h
        subst h
        exact rayFinish_dist_bounds e _ hmd hperp
    · rw [Bool.not_eq_true] at hoob
      simp only [hoob, Bool.false_eq_true, if_false] at h
      by_cases hhit : rayHitWall e (rayExitCheck e s.mapX s.mapY (rayStep e s)) = true
      · simp only [hhit, if_true, Option.some.injEq] at h
        subst h
        exact rayFinish_dist_bounds e _ hmd hperp
      · rw [Bool.not_eq_true] at hhit
        simp only [hhit, Bool.false_eq_true, if_false] at h
        refine ih _ r hinv2 ?_ ?_ h
        · rcases rayAfterStep_facts e s with ⟨-, h1, -⟩ | ⟨-, h1, -⟩ <;> rw [h1]
          · exact add_nonneg hsx (deltaDistX_nonneg e)
          · exact hsx
        · rcases rayAfterStep_facts e s with ⟨-, -, h2⟩ | ⟨-, -, h2⟩ <;> rw [h2]
          · exact hsy
          · exact add_nonneg hsy (deltaDistY_nonneg e)

theorem castInit_sideDistX_nonneg (e : RayEnv) (hx : 0 ≤ e.startX) :
    0 ≤ (castInit e).sideDistX := by
  unfold castInit
  dsimp only
  split
  · apply mul_nonneg _ (deltaDistX_nonneg e)
    rw [ratTrunc_eq_floor_of_nonneg hx]
    have := Int.floor_le e.startX
    linarith
  · apply mul_nonneg _ (deltaDistX_nonneg e)
    rw [ratTrunc_eq_floor_of_nonneg hx]
    have := Int.lt_floor_add_one e.startX
    linarith

theorem castInit_sideDistY_nonneg (e : RayEnv) (hy : 0 ≤ e.startY) :
    0 ≤ (castInit e).sideDistY := by
  unfold castInit
  dsimp only
  split
  · apply mul_nonneg _ (deltaDistY_nonneg e)
    rw [ratTrunc_eq_floor_of_nonneg hy]
    have := Int.floor_le e.startY
    linarith
  · apply mul_nonneg _ (deltaDistY_nonneg e)
    rw [ratTrunc_eq_floor_of_nonneg hy]
    have := Int.lt_floor_add_one e.startY
    linarith

/-- C3 counterexample: in a fully open 5×5 grid, casting due east from
`(0.5, 0.5)` with `max_distance = 2` and the exit configured at cell
`(4, 0)` takes the early return after passing the exit and reports
`distance = 3.5 > max_distance`: the early-return path does not clamp,
so the claim `distance ≤ max_distance` on every return path is false. -/
theorem c3_distance_counterexample :
    (castRay (1/2) (1/2) 1 0 mazeOpen5 2 (some 4) (some (1/2))).map
        RaycastResult.distance = some (7/2) ∧
    ¬ ((7/2 : ℚ) ≤ 2) := by
  constructor
  · with_unfolding_all decide
  · norm_num

/-- C3 (amended): for origins with coordinates in `[0, 2^31)` — the
range where the source's `f64 as i32` cast is exact truncation, so the
embedding is faithful; at or above 2^31 the saturating cast makes the
real code's initial side distance hugely negative and `cast_ray` can
return negative distances — and a nonnegative `max_distance`, every
result of `cast_ray` satisfies
`0 ≤ distance ≤ max(max_distance, exit_threshold_dist)`: the normal
return path clamps to `max_distance`, but the early return taken when
the ray has passed the exit and steps out of bounds reports the
unclamped (positive) exit threshold distance, which can exceed
`max_distance`. -/
theorem c3_distance_bounds (startX startY dx dy : ℚ) (maze : MazeS)
    (maxDistance : ℚ) (exitX exitY : Option ℚ)
    (hx : 0 ≤ startX) (hy : 0 ≤ startY)
    (hxs : startX < 2 ^ 31) (hys : startY < 2 ^ 31)
    (hmd : 0 ≤ maxDistance) (r : RaycastResult)
    (h : castRay startX startY dx dy maze maxDistance exitX exitY = some r) :
    0 ≤ r.distance ∧ r.distance ≤ max maxDistance (r.exitThresholdDist.getD 0) := by
  unfold castRay at h
  exact castLoop_dist (rayEnvOf startX startY dx dy maze maxDistance exitX exitY) hmd _ _ r
    (peInv_castInit _)
    (castInit_sideDistX_nonneg (rayEnvOf startX startY dx dy maze maxDistance exitX exitY) hx)
    (castInit_sideDistY_nonneg (rayEnvOf startX startY dx dy maze maxDistance exitX exitY) hy) h

/-- C3 witness: the bounds instantiated on the concrete east-facing cast
in the boxed 3×3 maze, whose result has distance 1/2. -/
theorem c3_distance_bounds_witness :
    0 ≤ (⟨1/2, 3, 2, 3/2, false, none⟩ : RaycastResult).distance ∧
    (⟨1/2, 3, 2, 3/2, false, none⟩ : RaycastResult).distance ≤
      max 10 ((⟨1/2, 3, 2, 3/2, false, none⟩ : RaycastResult).exitThresholdDist.getD 0) :=
  c3_distance_bounds (3/2) (3/2) 1 0 mazeBox3 10 none none
    (by norm_num) (by norm_num) (by norm_num) (by norm_num) (by norm_num) _
    (by with_unfolding_all decide)

/-! ## Claim C6: start selection -/

theorem startCandidate_zero (w h seed : ℕ) :
    startCandidate w h seed 0 = (sampleStart w h seed).1 := rfl

theorem startSeedAfter_succ (w h seed i : ℕ) :
    startSeedAfter w h seed (i + 1) = startSeedAfter w h (sampleStart w h seed).2 i := by
  unfold startSeedAfter
  exact Function.iterate_succ_apply _ _ _

theorem startCandidate_succ (w h seed i : ℕ) :
    startCandidate w h seed (i + 1) = startCandidate w h (sampleStart w h seed).2 i := by
  unfold startCandidate
  rw [startSeedAfter_succ]

theorem selectStartGo_spec (w h : ℕ) (ex : ℕ × ℕ) :
    ∀ k seed, ∃ i ≤ k,
      selectStartGo w h ex k seed
        = (startCandidate w h seed i, startSeedAfter w h seed (i + 1)) ∧
      (∀ j < i, ¬ 9 < distSq (startCandidate w h seed j) ex) ∧
      (i < k → 9 < distSq (startCandidate w h seed i) ex) := by
  intro k
  induction k with
  | zero =>
    intro seed
    refine ⟨0, le_refl 0, rfl, ?_, ?_⟩
    · intro j hj
      omega
    · intro h0
      omega
  | succ k ih =>
    intro seed
    by_cases hp : 9 < distSq (sampleStart w h seed).1 ex
    · refine ⟨0, Nat.zero_le _, ?_, ?_, ?_⟩
      · show selectStartGo w h ex (k + 1) seed = _
        rw [selectStartGo]
        rw [if_pos hp]
        rfl
      · intro j hj
        omega
      · intro _
        exact hp
    · obtain ⟨i, hik, heq, hfail, hpass⟩ := ih (sampleStart w h seed).2
      refine ⟨i + 1, by omega, ?_, ?_, ?_⟩
      · show selectStartGo w h ex (k + 1) seed = _
        rw [selectStartGo]
        rw [if_neg hp]
        rw [startCandidate_succ, startSeedAfter_succ]
        exact heq
      · intro j hj
        match j with
        | 0 =>
          rw [startCandidate_zero]
          exact hp
        | j' + 1 =>
          rw [startCandidate_succ]
          exact hfail j' (by omega)
      · intro hik2
        rw [startCandidate_succ]
        exact hpass (by omega)

set_option maxRecDepth 16000 in
/-- C6 counterexample: at `width = height = 5`, exit `(0, 2)` and the
concrete seed 316277, all 51 retried samples lie within distance 3.0 of
the exit, so the loop exhausts its retries; it then accepts the 52nd
sample `(3, 2)` (squared distance 9) unconditionally, although the
earlier candidate with index 4 has squared distance 1 — the accepted
start is not the closest candidate found during the retries. -/
theorem c6_start_selection_counterexample :
    (∀ i < 51, ¬ 9 < distSq (startCandidate 5 5 316277 i) (0, 2)) ∧
    (selectStart 5 5 (0, 2) 316277).1 = (3, 2) ∧
    distSq (startCandidate 5 5 316277 4) (0, 2)
      < distSq (selectStart 5 5 (0, 2) 316277).1 (0, 2) := by
  refine ⟨?_, ?_, ?_⟩ <;> decide

/-- C6 (amended): the start cell is chosen by repeatedly sampling
interior cells, accepting the first whose Euclidean distance to the exit
exceeds 3.0; if none of the first 51 samples qualifies, the 52nd sample
is accepted unconditionally (no closest-candidate tracking exists in the
code).  Stated as: the loop's result is the first qualifying candidate,
or candidate 51 when none of the first 51 qualifies. -/
theorem c6_start_selection (w h : ℕ) (ex : ℕ × ℕ) (seed : ℕ) :
    ∃ i ≤ 51,
      selectStart w h ex seed
        = (startCandidate w h seed i, startSeedAfter w h seed (i + 1)) ∧
      (∀ j < i, ¬ 9 < distSq (startCandidate w h seed j) ex) ∧
      (i < 51 → 9 < distSq (startCandidate w h seed i) ex) :=
  selectStartGo_spec w h ex 51 seed

/-! ## Grid update lemmas -/

theorem cellAt_eq (g : List (List Bool)) (x y : ℕ) :
    cellAt g x y = ((g[y]?.getD [])[x]?).getD true := by
  unfold cellAt
  rw [List.getD_eq_getElem?_getD, List.getD_eq_getElem?_getD]

theorem cellAt_setCell_frame (g : List (List Bool)) (x y x' y' : ℕ) (b : Bool)
    (hne : ¬ (x' = x ∧ y' = y)) :
    cellAt (setCell g x y b) x' y' = cellAt g x' y' := by
  rw [cellAt_eq, cellAt_eq]
  unfold setCell
  by_cases hy : y = y'
  · subst hy
    have hx : x ≠ x' := fun hx => hne ⟨hx.symm, rfl⟩
    rw [List.getElem?_set, if_pos rfl]
    by_cases hl : y < g.length
    · rw [if_pos hl, Option.getD_some, List.getElem?_set_ne hx,
        List.getD_eq_getElem?_getD]
    · rw [if_neg hl, Option.getD_none]
      have hnone : g[y]? = none := List.getElem?_eq_none (le_of_not_lt hl)
      rw [hnone, Option.getD_none]
  · rw [List.getElem?_set, if_neg hy]

theorem cellAt_setCell_self (g : List (List Bool)) (x y : ℕ) (b : Bool)
    (hl : y < g.length) (hxl : x < (g.getD y []).length) :
    cellAt (setCell g x y b) x y = b := by
  rw [cellAt_eq]
  unfold setCell
  rw [List.getElem?_set, if_pos rfl, if_pos hl, Option.getD_some, List.getElem?_set,
    if_pos rfl, if_pos hxl, Option.getD_some]

theorem cellAt_setCell_false_mono (g : List (List Bool)) (x y x' y' : ℕ)
    (h : cellAt g x' y' = false) :
    cellAt (setCell g x y false) x' y' = false := by
  by_cases he : x' = x ∧ y' = y
  · obtain ⟨hx, hy⟩ := he
    subst hx; subst hy
    by_cases hl : y' < g.length
    · by_cases hxl : x' < (g.getD y' []).length
      · exact cellAt_setCell_self g x' y' false hl hxl
      · rw [cellAt_eq] at h ⊢
        unfold setCell
        rw [List.set_eq_of_length_le (le_of_not_lt hxl), List.getElem?_set,
          if_pos rfl, if_pos hl, Option.getD_some, List.getD_eq_getElem?_getD]
        exact h
    · unfold setCell
      rw [List.set_eq_of_length_le (le_of_not_lt hl)]
      exact h
  · rw [cellAt_setCell_frame g x y x' y' false he]
    exact h

/-- Reading the whole grid is monotone under clearing cells: every cell
already open stays open. -/
theorem reaches_mono {g g' : List (List Bool)}
    (hsub : ∀ x y, cellAt g x y = false → cellAt g' x y = false)
    {a b : ℕ × ℕ} (h : Reaches g a b) : Reaches g' a b := by
  induction h with
  | refl => exact Relation.ReflTransGen.refl
  | tail _ hstep ih => exact Relation.ReflTransGen.tail ih ⟨hstep.1, hsub _ _ hstep.2⟩

theorem reaches_step {g : List (List Bool)} {a b : ℕ × ℕ}
    (hadj : AdjCell a b) (hopen : cellAt g b.1 b.2 = false) :
    Reaches g a b :=
  Relation.ReflTransGen.single ⟨hadj, hopen⟩

/-! ## Well-formed grids -/

theorem gridWF_replicate (w h : ℕ) :
    GridWF (List.replicate h (List.replicate w true)) w h := by
  constructor
  · exact List.length_replicate h _
  · intro row hrow
    rw [List.eq_of_mem_replicate hrow]
    exact List.length_replicate w _

theorem gridWF_setCell {g : List (List Bool)} {w h : ℕ} (hwf : GridWF g w h)
    (x y : ℕ) (b : Bool) : GridWF (setCell g x y b) w h := by
  obtain ⟨hlen, hrows⟩ := hwf
  by_cases hy : y < g.length
  · constructor
    · rw [setCell, List.length_set]
      exact hlen
    · intro row hrow
      rcases List.mem_or_eq_of_mem_set hrow with hmem | heq
      · exact hrows row hmem
      · subst heq
        rw [List.length_set]
        have hmem : g.getD y [] ∈ g := by
          rw [List.getD_eq_getElem g [] hy]
          exact List.getElem_mem hy
        exact hrows _ hmem
  · unfold setCell
    rw [List.set_eq_of_length_le (le_of_not_lt hy)]
    exact ⟨hlen, hrows⟩

theorem gridWF_row_length {g : List (List Bool)} {w h : ℕ} (hwf : GridWF g w h)
    {y : ℕ} (hy : y < h) : (g.getD y []).length = w := by
  obtain ⟨hlen, hrows⟩ := hwf
  have hy' : y < g.length := by omega
  rw [List.getD_eq_getElem g [] hy']
  exact hrows _ (List.getElem_mem hy')

theorem cellAt_setCell_self_wf {g : List (List Bool)} {w h : ℕ}
    (hwf : GridWF g w h) {x y : ℕ} (hx : x < w) (hy : y < h) (b : Bool) :
    cellAt (setCell g x y b) x y = b := by
  apply cellAt_setCell_self
  · rw [hwf.1]
    exact hy
  · rw [gridWF_row_length hwf hy]
    exact hx

theorem cellAt_replicate_true (w h x y : ℕ) :
    cellAt (List.replicate h (List.replicate w true)) x y = true := by
  rw [cellAt_eq, List.getElem?_replicate]
  by_cases hy : y < h
  · rw [if_pos hy, Option.getD_some, List.getElem?_replicate]
    by_cases hx : x < w
    · rw [if_pos hx, Option.getD_some]
    · rw [if_neg hx, Option.getD_none]
  · rw [if_neg hy, Option.getD_none]
    rfl

/-! ## DFS neighbor lemmas -/

theorem mem_getUnvisitedNeighbors {w h : ℕ} {pos c : ℕ × ℕ}
    {visited : List (ℕ × ℕ)} (hc : c ∈ getUnvisitedNeighbors w h pos visited) :
    c ∉ visited ∧
    ((c = (pos.1 - 2, pos.2) ∧ 2 < pos.1) ∨
     (c = (pos.1 + 2, pos.2) ∧ pos.1 < w - 2) ∨
     (c = (pos.1, pos.2 - 2) ∧ 2 < pos.2) ∨
     (c = (pos.1, pos.2 + 2) ∧ pos.2 < h - 2)) := by
  unfold getUnvisitedNeighbors at hc
  simp only [List.mem_append] at hc
  rcases hc with ((hc | hc) | hc) | hc <;>
    [skip; skip; skip; skip] <;>
    (split_ifs at hc with hcond
     · simp only [List.mem_singleton] at hc
       subst hc
       first
         | exact ⟨hcond.2, Or.inl ⟨rfl, hcond.1⟩⟩
         | exact ⟨hcond.2, Or.inr (Or.inl ⟨rfl, hcond.1⟩)⟩
         | exact ⟨hcond.2, Or.inr (Or.inr (Or.inl ⟨rfl, hcond.1⟩))⟩
         | exact ⟨hcond.2, Or.inr (Or.inr (Or.inr ⟨rfl, hcond.1⟩))⟩
     · simp at hc)

theorem getD_mem_of_ne_nil {l : List (ℕ × ℕ)} (hne : l ≠ []) (i : ℕ) :
    l.getD (i % l.length) (0, 0) ∈ l := by
  have hlen : 0 < l.length := List.length_pos.mpr hne
  have hlt : i % l.length < l.length := Nat.mod_lt i hlen
  rw [List.getD_eq_getElem l _ hlt]
  exact List.getElem_mem hlt

/-! ## DFS invariant preservation -/

theorem carveState_inv {w h : ℕ} {start ex : ℕ × ℕ} {s : DfsState}
    {current nxt : ℕ × ℕ} {rest : List (ℕ × ℕ)} {er : Bool} {s1 : ℕ}
    (hinv : DfsInv w h start ex s)
    (hst : s.stack = current :: rest)
    (hmem : nxt ∈ getUnvisitedNeighbors w h current s.visited)
    (her : er = true → ∃ c ∈ s.visited, exitTouchCheck ex c = true) :
    DfsInv w h start ex
      { grid := setCell (removeWallBetween s.grid current nxt) nxt.1 nxt.2 false
        visited := nxt :: s.visited
        stack := nxt :: current :: rest
        seed := s1
        exitReached := er } ∧
    (∀ x, cellAt (setCell (removeWallBetween s.grid current nxt) nxt.1 nxt.2 false) x 0
      = cellAt s.grid x 0) ∧
    (∀ y, cellAt (setCell (removeWallBetween s.grid current nxt) nxt.1 nxt.2 false) 0 y
      = cellAt s.grid 0 y) := by
  obtain ⟨hwf, hbounds, hopenreach, hstack, hstart, -⟩ := hinv
  have hcur : current ∈ s.visited := hstack current (by rw [hst]; exact List.mem_cons_self _ _)
  obtain ⟨hc1, hc2, hc3, hc4⟩ := hbounds current hcur
  obtain ⟨hnv, hcase⟩ := mem_getUnvisitedNeighbors hmem
  have hgeom : (1 ≤ nxt.1 ∧ nxt.1 < w ∧ 1 ≤ nxt.2 ∧ nxt.2 < h) ∧
      (1 ≤ (current.1 + nxt.1) / 2 ∧ (current.1 + nxt.1) / 2 < w ∧
        1 ≤ (current.2 + nxt.2) / 2 ∧ (current.2 + nxt.2) / 2 < h) ∧
      AdjCell current ((current.1 + nxt.1) / 2, (current.2 + nxt.2) / 2) ∧
      AdjCell ((current.1 + nxt.1) / 2, (current.2 + nxt.2) / 2) nxt := by
    rcases hcase with ⟨heq, hcond⟩ | ⟨heq, hcond⟩ | ⟨heq, hcond⟩ | ⟨heq, hcond⟩
    · have e1 : nxt.1 = current.1 - 2 := by rw [heq]
      have e2 : nxt.2 = current.2 := by rw [heq]
      refine ⟨by omega, by omega, ?_, ?_⟩ <;> (simp only [AdjCell]; omega)
    · have e1 : nxt.1 = current.1 + 2 := by rw [heq]
      have e2 : nxt.2 = current.2 := by rw [heq]
      refine ⟨by omega, by omega, ?_, ?_⟩ <;> (simp only [AdjCell]; omega)
    · have e1 : nxt.1 = current.1 := by rw [heq]
      have e2 : nxt.2 = current.2 - 2 := by rw [heq]
      refine ⟨by omega, by omega, ?_, ?_⟩ <;> (simp only [AdjCell]; omega)
    · have e1 : nxt.1 = current.1 := by rw [heq]
      have e2 : nxt.2 = current.2 + 2 := by rw [heq]
      refine ⟨by omega, by omega, ?_, ?_⟩ <;> (simp only [AdjCell]; omega)
  obtain ⟨hnb, hmb, hadj1, hadj2⟩ := hgeom
  have hwf1 : GridWF (setCell s.grid ((current.1 + nxt.1) / 2) ((current.2 + nxt.2) / 2) false) w h :=
    gridWF_setCell hwf _ _ _
  have hwf2 : GridWF (setCell (removeWallBetween s.grid current nxt) nxt.1 nxt.2 false) w h := by
    show GridWF (setCell (setCell s.grid _ _ false) nxt.1 nxt.2 false) w h
    exact gridWF_setCell hwf1 _ _ _
  have hmono : ∀ x y, cellAt s.grid x y = false →
      cellAt (setCell (removeWallBetween s.grid current nxt) nxt.1 nxt.2 false) x y = false := by
    intro x y hxy
    show cellAt (setCell (setCell s.grid _ _ false) nxt.1 nxt.2 false) x y = false
    exact cellAt_setCell_false_mono _ _ _ _ _ (cellAt_setCell_false_mono _ _ _ _ _ hxy)
  have hopen_mid : cellAt (setCell (removeWallBetween s.grid current nxt) nxt.1 nxt.2 false)
      ((current.1 + nxt.1) / 2) ((current.2 + nxt.2) / 2) = false := by
    show cellAt (setCell (setCell s.grid _ _ false) nxt.1 nxt.2 false) _ _ = false
    apply cellAt_setCell_false_mono
    exact cellAt_setCell_self_wf hwf (by omega) (by omega) false
  have hopen_nxt : cellAt (setCell (removeWallBetween s.grid current nxt) nxt.1 nxt.2 false)
      nxt.1 nxt.2 = false := by
    show cellAt (setCell (setCell s.grid _ _ false) nxt.1 nxt.2 false) _ _ = false
    exact cellAt_setCell_self_wf hwf1 (by omega) (by omega) false
  refine ⟨⟨hwf2, ?_, ?_, ?_, ?_, ?_⟩, ?_, ?_⟩
  · intro c hc
    rcases List.mem_cons.mp hc with heq | hmem'
    · subst heq
      exact ⟨hnb.1, hnb.2.1, hnb.2.2.1, hnb.2.2.2⟩
    · exact hbounds c hmem'
  · intro c hc
    rcases List.mem_cons.mp hc with heq | hmem'
    · subst heq
      constructor
      · exact hopen_nxt
      · have hrc := reaches_mono hmono (hopenreach current hcur).2
        exact (hrc.tail ⟨hadj1, hopen_mid⟩).tail ⟨hadj2, hopen_nxt⟩
    · obtain ⟨ho, hr⟩ := hopenreach c hmem'
      exact ⟨hmono _ _ ho, reaches_mono hmono hr⟩
  · intro c hc
    show c ∈ nxt :: s.visited
    rcases List.mem_cons.mp hc with heq | hc2
    · subst heq
      exact List.mem_cons_self _ _
    · rcases List.mem_cons.mp hc2 with heq | hc3
      · subst heq
        exact List.mem_cons_of_mem _ hcur
      · exact List.mem_cons_of_mem _ (hstack c (by rw [hst]; exact List.mem_cons_of_mem _ hc3))
  · exact List.mem_cons_of_mem _ hstart
  · intro hflag
    obtain ⟨c, hcv, hcc⟩ := her hflag
    exact ⟨c, List.mem_cons_of_mem _ hcv, hcc⟩
  · intro x
    show cellAt (setCell (setCell s.grid ((current.1 + nxt.1) / 2)
      ((current.2 + nxt.2) / 2) false) nxt.1 nxt.2 false) x 0 = cellAt s.grid x 0
    rw [cellAt_setCell_frame _ _ _ _ _ _ (by omega),
      cellAt_setCell_frame _ _ _ _ _ _ (by omega)]
  · intro y
    show cellAt (setCell (setCell s.grid ((current.1 + nxt.1) / 2)
      ((current.2 + nxt.2) / 2) false) nxt.1 nxt.2 false) 0 y = cellAt s.grid 0 y
    rw [cellAt_setCell_frame _ _ _ _ _ _ (by omega),
      cellAt_setCell_frame _ _ _ _ _ _ (by omega)]

theorem dfsCarve_inv {w h : ℕ} {start ex : ℕ × ℕ} {s : DfsState}
    {current : ℕ × ℕ} {rest : List (ℕ × ℕ)} {er : Bool}
    (hinv : DfsInv w h start ex s)
    (hst : s.stack = current :: rest)
    (hne : getUnvisitedNeighbors w h current s.visited ≠ [])
    (her : er = true → ∃ c ∈ s.visited, exitTouchCheck ex c = true) :
    DfsInv w h start ex (dfsCarve w h s current rest er) ∧
    (∀ x, cellAt (dfsCarve w h s current rest er).grid x 0 = cellAt s.grid x 0) ∧
    (∀ y, cellAt (dfsCarve w h s current rest er).grid 0 y = cellAt s.grid 0 y) :=
  carveState_inv hinv hst (getD_mem_of_ne_nil hne (lcgNext s.seed)) her

theorem dfsGo_inv_frame (w h : ℕ) (start ex : ℕ × ℕ) :
    ∀ k s, DfsInv w h start ex s →
      DfsInv w h start ex (dfsGo w h ex k s) ∧
      (∀ x, cellAt (dfsGo w h ex k s).grid x 0 = cellAt s.grid x 0) ∧
      (∀ y, cellAt (dfsGo w h ex k s).grid 0 y = cellAt s.grid 0 y) := by
  intro k
  induction k with
  | zero =>
    intro s hinv
    rw [dfsGo]
    exact ⟨hinv, fun _ => rfl, fun _ => rfl⟩
  | succ k ih =>
    intro s hinv
    rw [dfsGo]
    rcases hst : s.stack with _ | ⟨current, rest⟩
    · simp only [hst]
      refine ⟨hinv, fun _ => ?_, fun _ => ?_⟩ <;> trivial
    · simp only [hst]
      have hcur : current ∈ s.visited :=
        hinv.2.2.2.1 current (by rw [hst]; exact List.mem_cons_self _ _)
      have her : (s.exitReached || exitTouchCheck ex current) = true →
          ∃ c ∈ s.visited, exitTouchCheck ex c = true := by
        intro hor
        rcases Bool.or_eq_true_iff.mp hor with h1 | h2
        · exact hinv.2.2.2.2.2 h1
        · exact ⟨current, hcur, h2⟩
      split
      · -- no unvisited neighbors: pop
        have hinv' : DfsInv w h start ex
            { s with stack := rest,
                     exitReached := s.exitReached || exitTouchCheck ex current } := by
          obtain ⟨hwf, hb, hor, hstk, hs, -⟩ := hinv
          refine ⟨hwf, hb, hor, ?_, hs, her⟩
          intro c hc
          exact hstk c (by rw [hst]; exact List.mem_cons_of_mem _ hc)
        exact ih _ hinv'
      · -- carve
        rename_i hne'
        obtain ⟨hinvC, hrowC, hcolC⟩ := dfsCarve_inv hinv hst hne' her
        obtain ⟨hI, hrow, hcol⟩ := ih _ hinvC
        refine ⟨hI, ?_, ?_⟩
        · intro x
          rw [hrow x, hrowC x]
        · intro y
          rw [hcol y, hcolC y]

/-! ## Exit and start position facts -/

theorem pickExit_shape (w h seed : ℕ) (hw : 5 ≤ w) (hh : 5 ≤ h) :
    ((pickExit w h seed).1.2 = 0 ∧ 1 ≤ (pickExit w h seed).1.1 ∧
      (pickExit w h seed).1.1 ≤ w - 2) ∨
    ((pickExit w h seed).1.1 = w - 1 ∧ 1 ≤ (pickExit w h seed).1.2 ∧
      (pickExit w h seed).1.2 ≤ h - 2) ∨
    ((pickExit w h seed).1.2 = h - 1 ∧ 1 ≤ (pickExit w h seed).1.1 ∧
      (pickExit w h seed).1.1 ≤ w - 2) ∨
    ((pickExit w h seed).1.1 = 0 ∧ 1 ≤ (pickExit w h seed).1.2 ∧
      (pickExit w h seed).1.2 ≤ h - 2) := by
  have hx : lcgNext (lcgNext seed) % (w - 2) < w - 2 := Nat.mod_lt _ (by omega)
  have hy : lcgNext (lcgNext seed) % (h - 2) < h - 2 := Nat.mod_lt _ (by omega)
  unfold pickExit
  dsimp only
  split_ifs <;> (try dsimp only) <;> omega

theorem sampleStart_bounds (w h seed : ℕ) (hw : 5 ≤ w) (hh : 5 ≤ h) :
    1 ≤ (sampleStart w h seed).1.1 ∧ (sampleStart w h seed).1.1 ≤ w - 2 ∧
    1 ≤ (sampleStart w h seed).1.2 ∧ (sampleStart w h seed).1.2 ≤ h - 2 := by
  have h1 : lcgNext seed % (w - 2) < w - 2 := Nat.mod_lt _ (by omega)
  have h2 : lcgNext (lcgNext seed) % (h - 2) < h - 2 := Nat.mod_lt _ (by omega)
  unfold sampleStart
  dsimp only
  omega

theorem selectStartGo_bounds (w h : ℕ) (ex : ℕ × ℕ) (hw : 5 ≤ w) (hh : 5 ≤ h) :
    ∀ k seed,
      1 ≤ (selectStartGo w h ex k seed).1.1 ∧
      (selectStartGo w h ex k seed).1.1 ≤ w - 2 ∧
      1 ≤ (selectStartGo w h ex k seed).1.2 ∧
      (selectStartGo w h ex k seed).1.2 ≤ h - 2 := by
  intro k
  induction k with
  | zero =>
    intro seed
    rw [selectStartGo]
    exact sampleStart_bounds w h seed hw hh
  | succ k ih =>
    intro seed
    rw [selectStartGo]
    split
    · exact sampleStart_bounds w h seed hw hh
    · exact ih _

/-! ## Fallback scan lemmas -/

theorem scanStep_isSome_of_guard {g : List (List Bool)} {visited : List (ℕ × ℕ)}
    {ex : ℕ × ℕ} (acc : Option ℤ × (ℕ × ℕ)) (c : ℕ × ℕ)
    (hG : cellAt g c.1 c.2 = false ∧ c ∈ visited) :
    (scanStep g visited ex acc c).1.isSome = true := by
  unfold scanStep
  rw [if_pos hG]
  rcases hacc : acc.1 with _ | m <;> dsimp only
  · simp
  · split
    · simp
    · rw [hacc]
      simp

theorem scanStep_isSome_mono {g : List (List Bool)} {visited : List (ℕ × ℕ)}
    {ex : ℕ × ℕ} (acc : Option ℤ × (ℕ × ℕ)) (c : ℕ × ℕ)
    (hs : acc.1.isSome = true) :
    (scanStep g visited ex acc c).1.isSome = true := by
  unfold scanStep
  split_ifs with hG
  · rcases hacc : acc.1 with _ | m <;> dsimp only
    · simp
    · split
      · simp
      · rw [hacc]
        simp
  · exact hs

theorem scanStep_result {g : List (List Bool)} {visited : List (ℕ × ℕ)}
    {ex : ℕ × ℕ} (acc : Option ℤ × (ℕ × ℕ)) (c : ℕ × ℕ) :
    scanStep g visited ex acc c = acc ∨
    ((cellAt g c.1 c.2 = false ∧ c ∈ visited) ∧ (scanStep g visited ex acc c).2 = c) := by
  unfold scanStep
  split_ifs with hG
  · rcases hacc : acc.1 with _ | m <;> dsimp only
    · right
      exact ⟨hG, rfl⟩
    · split
      · right
        exact ⟨hG, rfl⟩
      · left
        rfl
  · left
    rfl

theorem scanFold_pred {g : List (List Bool)} {visited : List (ℕ × ℕ)}
    {ex : ℕ × ℕ} (P : ℕ × ℕ → Prop) :
    ∀ (l : List (ℕ × ℕ)) (acc : Option ℤ × (ℕ × ℕ)),
      (acc.1.isSome = true → P acc.2) →
      (∀ c ∈ l, cellAt g c.1 c.2 = false → c ∈ visited → P c) →
      (l.foldl (scanStep g visited ex) acc).1.isSome = true →
      P (l.foldl (scanStep g visited ex) acc).2 := by
  intro l
  induction l with
  | nil => intro acc hacc _ hs; exact hacc hs
  | cons c l ih =>
    intro acc hacc hl hs
    rw [List.foldl_cons] at hs ⊢
    refine ih (scanStep g visited ex acc c) ?_
      (fun d hd h1 h2 => hl d (List.mem_cons_of_mem _ hd) h1 h2) hs
    intro hsome
    rcases scanStep_result acc c with he | ⟨hG, h2⟩
    · rw [he] at hsome ⊢
      exact hacc hsome
    · rw [h2]
      exact hl c (List.mem_cons_self _ _) hG.1 hG.2

theorem scanFold_isSome {g : List (List Bool)} {visited : List (ℕ × ℕ)}
    {ex : ℕ × ℕ} :
    ∀ (l : List (ℕ × ℕ)) (acc : Option ℤ × (ℕ × ℕ)),
      ((∃ c ∈ l, cellAt g c.1 c.2 = false ∧ c ∈ visited) ∨ acc.1.isSome = true) →
      (l.foldl (scanStep g visited ex) acc).1.isSome = true := by
  intro l
  induction l with
  | nil =>
    intro acc hor
    rcases hor with ⟨c, hc, -⟩ | hs
    · simp at hc
    · exact hs
  | cons c l ih =>
    intro acc hor
    rw [List.foldl_cons]
    rcases hor with ⟨d, hd, hG⟩ | hs
    · rcases List.mem_cons.mp hd with heq | hd'
      · subst heq
        exact ih _ (Or.inr (scanStep_isSome_of_guard acc d hG))
      · exact ih _ (Or.inl ⟨d, hd', hG⟩)
    · exact ih _ (Or.inr (scanStep_isSome_mono acc c hs))

theorem mem_interiorCells {w h : ℕ} {c : ℕ × ℕ} :
    c ∈ interiorCells w h ↔
      1 ≤ c.1 ∧ c.1 ≤ w - 2 ∧ 1 ≤ c.2 ∧ c.2 ≤ h - 2 := by
  unfold interiorCells
  simp only [List.mem_flatMap, List.mem_map, List.mem_range'_1]
  constructor
  · rintro ⟨y, ⟨hy1, hy2⟩, x, ⟨hx1, hx2⟩, rfl⟩
    dsimp only
    omega
  · rintro ⟨h1, h2, h3, h4⟩
    refine ⟨c.2, ⟨h3, by omega⟩, c.1, ⟨h1, by omega⟩, rfl⟩

theorem findNearest_spec {g : List (List Bool)} {visited : List (ℕ × ℕ)}
    {ex : ℕ × ℕ} {w h : ℕ}
    (hex : ∃ c ∈ interiorCells w h, cellAt g c.1 c.2 = false ∧ c ∈ visited) :
    cellAt g (findNearest g visited ex w h).1 (findNearest g visited ex w h).2 = false ∧
    findNearest g visited ex w h ∈ visited ∧
    findNearest g visited ex w h ∈ interiorCells w h := by
  unfold findNearest
  have hsome := @scanFold_isSome g visited ex
    (interiorCells w h) (none, (1, 1)) (Or.inl hex)
  have hres := scanFold_pred
    (fun c => (cellAt g c.1 c.2 = false ∧ c ∈ visited) ∧ c ∈ interiorCells w h)
    (interiorCells w h) (none, (1, 1)) (by intro hs; simp at hs)
    (fun c hc h1 h2 => ⟨⟨h1, h2⟩, hc⟩) hsome
  exact ⟨hres.1.1, hres.1.2, hres.2⟩

/-! ## Connection-path lemmas -/

theorem pathNext_spec {ex c : ℕ × ℕ} (hne : c ≠ ex) :
    AdjCell c (pathNext ex c) ∧
    ((pathNext ex c).1 - ex.1) + (ex.1 - (pathNext ex c).1) +
      ((pathNext ex c).2 - ex.2) + (ex.2 - (pathNext ex c).2) + 1
      = (c.1 - ex.1) + (ex.1 - c.1) + (c.2 - ex.2) + (ex.2 - c.2) ∧
    (pathNext ex c).1 ≤ max c.1 ex.1 ∧ (pathNext ex c).2 ≤ max c.2 ex.2 := by
  have hne' : ¬(c.1 = ex.1 ∧ c.2 = ex.2) := fun hc => hne (Prod.ext hc.1 hc.2)
  have hm1 : c.1 ≤ max c.1 ex.1 := le_max_left _ _
  have hm2 : ex.1 ≤ max c.1 ex.1 := le_max_right _ _
  have hm3 : c.2 ≤ max c.2 ex.2 := le_max_left _ _
  have hm4 : ex.2 ≤ max c.2 ex.2 := le_max_right _ _
  unfold pathNext
  split_ifs with h1 h2 h3 h4
  · exact ⟨Or.inr ⟨rfl, Or.inr rfl⟩, by omega, by omega, by omega⟩
  · exact ⟨Or.inr ⟨rfl, Or.inl (show c.1 = c.1 - 1 + 1 by omega)⟩,
      by omega, by omega, by omega⟩
  · exact ⟨Or.inl ⟨rfl, Or.inr rfl⟩, by omega, by omega, by omega⟩
  · exact ⟨Or.inl ⟨rfl, Or.inl (show c.2 = c.2 - 1 + 1 by omega)⟩,
      by omega, by omega, by omega⟩
  · exact absurd ⟨by omega, by omega⟩ hne'

theorem pathGo_spec (w h : ℕ) (ex : ℕ × ℕ) (hexw : ex.1 < w) (hexh : ex.2 < h) :
    ∀ k c g, GridWF g w h → c.1 < w → c.2 < h →
      (c.1 - ex.1) + (ex.1 - c.1) + (c.2 - ex.2) + (ex.2 - c.2) ≤ k →
      GridWF (pathGo ex k c g) w h ∧
      (∀ x y, cellAt g x y = false → cellAt (pathGo ex k c g) x y = false) ∧
      Reaches (pathGo ex k c g) c ex := by
  intro k
  induction k with
  | zero =>
    intro c g hwf hcw hch hd
    have hce : c = ex := Prod.ext (by omega) (by omega)
    rw [pathGo]
    subst hce
    exact ⟨hwf, fun _ _ hx => hx, Relation.ReflTransGen.refl⟩
  | succ k ih =>
    intro c g hwf hcw hch hd
    rw [pathGo]
    by_cases hce : c = ex
    · rw [if_pos hce]
      subst hce
      exact ⟨hwf, fun _ _ hx => hx, Relation.ReflTransGen.refl⟩
    · rw [if_neg hce]
      obtain ⟨hadj, hdec, hbx, hby⟩ := pathNext_spec hce
      have hne2 : ¬ pathNext ex c = c := by
        intro he
        rw [he] at hdec
        omega
      rw [if_neg hne2]
      have hmw : max c.1 ex.1 < w := max_lt hcw hexw
      have hmh : max c.2 ex.2 < h := max_lt hch hexh
      obtain ⟨hwf', hmono', hreach⟩ := ih (pathNext ex c)
        (setCell g (pathNext ex c).1 (pathNext ex c).2 false)
        (gridWF_setCell hwf _ _ _) (by omega) (by omega) (by omega)
      refine ⟨hwf', ?_, ?_⟩
      · intro x y hx
        exact hmono' _ _ (cellAt_setCell_false_mono _ _ _ _ _ hx)
      · have hopen : cellAt (pathGo ex k (pathNext ex c)
            (setCell g (pathNext ex c).1 (pathNext ex c).2 false))
            (pathNext ex c).1 (pathNext ex c).2 = false :=
          hmono' _ _ (cellAt_setCell_self_wf hwf (by omega) (by omega) false)
        exact Relation.ReflTransGen.head ⟨hadj, hopen⟩ hreach

theorem pathNext_row_inv {ex c : ℕ × ℕ} (hce : c ≠ ex) (hc2 : 1 ≤ c.2) :
    1 ≤ (pathNext ex c).2 ∨ pathNext ex c = ex := by
  have hne' : ¬(c.1 = ex.1 ∧ c.2 = ex.2) := fun hc => hce (Prod.ext hc.1 hc.2)
  unfold pathNext
  split_ifs with h1 h2 h3 h4
  · left; (try dsimp only); omega
  · left; (try dsimp only); omega
  · left; (try dsimp only); omega
  · by_cases hy1 : 1 ≤ c.2 - 1
    · left; (try dsimp only); omega
    · right
      refine Prod.ext ?_ ?_ <;> (try dsimp only) <;> omega
  · exact absurd ⟨by omega, by omega⟩ hne'

theorem pathNext_col_inv {ex c : ℕ × ℕ} (hce : c ≠ ex) (hex1 : ex.1 ≠ 0)
    (hc1 : 1 ≤ c.1) : 1 ≤ (pathNext ex c).1 := by
  have hne' : ¬(c.1 = ex.1 ∧ c.2 = ex.2) := fun hc => hce (Prod.ext hc.1 hc.2)
  unfold pathNext
  split_ifs with h1 h2 h3 h4 <;> (try dsimp only) <;> omega

theorem pathGo_frame_row0 (ex : ℕ × ℕ) :
    ∀ k (c : ℕ × ℕ) (g : List (List Bool)) (x' : ℕ),
      (1 ≤ c.2 ∨ c = ex) → (x', 0) ≠ ex →
      cellAt (pathGo ex k c g) x' 0 = cellAt g x' 0 := by
  intro k
  induction k with
  | zero =>
    intro c g x' _ _
    rw [pathGo]
  | succ k ih =>
    intro c g x' hc hxne
    rw [pathGo]
    by_cases hce : c = ex
    · rw [if_pos hce]
    · rw [if_neg hce]
      have hc2 : 1 ≤ c.2 := by
        rcases hc with hy | he
        · exact hy
        · exact absurd he hce
      by_cases hne2 : pathNext ex c = c
      · rw [if_pos hne2]
      · rw [if_neg hne2]
        have hstep := pathNext_row_inv hce hc2
        have hframe : cellAt (setCell g (pathNext ex c).1 (pathNext ex c).2 false) x' 0
            = cellAt g x' 0 := by
          apply cellAt_setCell_frame
          rintro ⟨he1, he2⟩
          rcases hstep with hy | hex
          · omega
          · apply hxne
            rw [hex] at he1 he2
            exact Prod.ext he1 he2
        rw [ih (pathNext ex c) _ x' hstep hxne, hframe]

theorem pathGo_frame_col0 (ex : ℕ × ℕ) (hex1 : ex.1 ≠ 0) :
    ∀ k (c : ℕ × ℕ) (g : List (List Bool)) (y' : ℕ), 1 ≤ c.1 →
      cellAt (pathGo ex k c g) 0 y' = cellAt g 0 y' := by
  intro k
  induction k with
  | zero =>
    intro c g y' _
    rw [pathGo]
  | succ k ih =>
    intro c g y' hc1
    rw [pathGo]
    by_cases hce : c = ex
    · rw [if_pos hce]
    · rw [if_neg hce]
      by_cases hne2 : pathNext ex c = c
      · rw [if_pos hne2]
      · rw [if_neg hne2]
        have hstep := pathNext_col_inv hce hex1 hc1
        have hframe : cellAt (setCell g (pathNext ex c).1 (pathNext ex c).2 false) 0 y'
            = cellAt g 0 y' := by
          apply cellAt_setCell_frame
          rintro ⟨he1, -⟩
          omega
        rw [ih (pathNext ex c) _ y' hstep, hframe]

/-! ## Exit-adjacent clearing lemmas -/

theorem clearExitAdjacent_mono {w h : ℕ} {ex : ℕ × ℕ} {g : List (List Bool)}
    (x y : ℕ) (hx : cellAt g x y = false) :
    cellAt (clearExitAdjacent w h ex g) x y = false := by
  unfold clearExitAdjacent
  split_ifs <;> first
    | exact cellAt_setCell_false_mono _ _ _ _ _ hx
    | exact hx

theorem clearExitAdjacent_wf {w h : ℕ} {ex : ℕ × ℕ} {g : List (List Bool)}
    (hwf : GridWF g w h) : GridWF (clearExitAdjacent w h ex g) w h := by
  unfold clearExitAdjacent
  split_ifs <;> first
    | exact gridWF_setCell hwf _ _ _
    | exact hwf

theorem clearExitAdjacent_frame_row0 {w h : ℕ} {ex : ℕ × ℕ} {g : List (List Bool)}
    (hh : 5 ≤ h) (x' : ℕ) :
    cellAt (clearExitAdjacent w h ex g) x' 0 = cellAt g x' 0 := by
  unfold clearExitAdjacent
  split_ifs <;> first
    | rfl
    | (apply cellAt_setCell_frame; rintro ⟨-, he2⟩; omega)

theorem clearExitAdjacent_frame_col0 {w h : ℕ} {ex : ℕ × ℕ} {g : List (List Bool)}
    (hw : 5 ≤ w) (hex1 : ex.1 ≠ 0) (y' : ℕ) :
    cellAt (clearExitAdjacent w h ex g) 0 y' = cellAt g 0 y' := by
  unfold clearExitAdjacent
  split_ifs <;> first
    | rfl
    | (apply cellAt_setCell_frame; rintro ⟨he1, -⟩; omega)

/-! ## Claim C1: generated mazes are connected -/

theorem dfsInit_inv (w h : ℕ) (start ex : ℕ × ℕ) (seed : ℕ) (hw : 5 ≤ w) (hh : 5 ≤ h)
    (h1 : 1 ≤ start.1) (h2 : start.1 ≤ w - 2) (h3 : 1 ≤ start.2) (h4 : start.2 ≤ h - 2) :
    DfsInv w h start ex (dfsInitState w h start seed) := by
  unfold dfsInitState
  have hwf0 := gridWF_replicate w h
  refine ⟨gridWF_setCell hwf0 _ _ _, ?_, ?_, ?_, ?_, ?_⟩
  · intro c hc
    rw [List.mem_singleton] at hc
    subst hc
    exact ⟨h1, by omega, h3, by omega⟩
  · intro c hc
    rw [List.mem_singleton] at hc
    subst hc
    exact ⟨cellAt_setCell_self_wf hwf0 (by omega) (by omega) false,
      Relation.ReflTransGen.refl⟩
  · intro c hc
    rw [List.mem_singleton] at hc
    subst hc
    exact List.mem_singleton_self _
  · exact List.mem_singleton_self _
  · intro hflag
    simp at hflag

theorem mazeNew_cells (w h seed : ℕ) :
    (mazeNew w h seed).cells = postDfs w h (pickExit w h seed).1 (mazeDfsState w h seed) := by
  simp only [mazeNew, generate]

theorem mazeNew_start (w h seed : ℕ) :
    (mazeNew w h seed).start
      = (selectStart w h (pickExit w h seed).1 (pickExit w h seed).2).1 := by
  simp only [mazeNew, generate]

theorem mazeNew_exit (w h seed : ℕ) :
    (mazeNew w h seed).exit = (pickExit w h seed).1 := by
  simp only [mazeNew, generate]

theorem postDfs_eq (w h : ℕ) (ex : ℕ × ℕ) (d : DfsState) :
    postDfs w h ex d = clearExitAdjacent w h ex (setCell
      (if d.exitReached
        then setCell d.grid ex.1 ex.2 false
        else pathGo ex (w + h)
          (findNearest (setCell d.grid ex.1 ex.2 false) d.visited ex w h)
          (setCell d.grid ex.1 ex.2 false)) ex.1 ex.2 false) := rfl

theorem selectStart_bounds (w h : ℕ) (ex : ℕ × ℕ) (hw : 5 ≤ w) (hh : 5 ≤ h) (seed : ℕ) :
    1 ≤ (selectStart w h ex seed).1.1 ∧ (selectStart w h ex seed).1.1 ≤ w - 2 ∧
    1 ≤ (selectStart w h ex seed).1.2 ∧ (selectStart w h ex seed).1.2 ≤ h - 2 := by
  unfold selectStart
  exact selectStartGo_bounds w h ex hw hh 51 seed

set_option maxRecDepth 40000 in
/-- C1: for every maze produced by `Maze::new` with `width, height ≥ 5`
(over every possible entropy seed), the start and exit cells are
non-wall and a flood-fill from the start over non-wall cells
(4-connected) reaches the exit: the DFS keeps every visited cell
reachable from the start, the fallback path connects the exit to a
visited cell when the traversal missed it, and the final fixups only
open further cells. -/
theorem c1_maze_connectivity (w h seed : ℕ) (hw : 5 ≤ w) (hh : 5 ≤ h) :
    cellAt (mazeNew w h seed).cells (mazeNew w h seed).start.1
      (mazeNew w h seed).start.2 = false ∧
    cellAt (mazeNew w h seed).cells (mazeNew w h seed).exit.1
      (mazeNew w h seed).exit.2 = false ∧
    Reaches (mazeNew w h seed).cells (mazeNew w h seed).start
      (mazeNew w h seed).exit := by
  rw [mazeNew_cells, mazeNew_start, mazeNew_exit, postDfs_eq]
  have hexsh := pickExit_shape w h seed hw hh
  set ex := (pickExit w h seed).1 with hexdef
  set s1 := (pickExit w h seed).2 with hs1def
  set start := (selectStart w h ex s1).1 with hstdef
  have hsb : 1 ≤ start.1 ∧ start.1 ≤ w - 2 ∧ 1 ≤ start.2 ∧ start.2 ≤ h - 2 := by
    rw [hstdef]
    exact selectStart_bounds w h ex hw hh s1
  have hexw : ex.1 < w := by
    rcases hexsh with ⟨-, -, hx⟩ | ⟨hx, -, -⟩ | ⟨-, -, hx⟩ | ⟨hx, -, -⟩ <;> omega
  have hexh2 : ex.2 < h := by
    rcases hexsh with ⟨hx, -, -⟩ | ⟨-, -, hx⟩ | ⟨hx, -, -⟩ | ⟨-, -, hx⟩ <;> omega
  set d := mazeDfsState w h seed with hddef
  have hinv0 := dfsInit_inv w h start ex (selectStart w h ex s1).2 hw hh
    hsb.1 hsb.2.1 hsb.2.2.1 hsb.2.2.2
  have hinvD : DfsInv w h start ex d :=
    (dfsGo_inv_frame w h start ex (2 * (w * h) + 2) _ hinv0).1
  have hstart_mem : start ∈ d.visited := hinvD.2.2.2.2.1
  have hOSr := hinvD.2.2.1 start hstart_mem
  set g1 := setCell d.grid ex.1 ex.2 false with hg1def
  have hwfD : GridWF d.grid w h := hinvD.1
  have hwf1 : GridWF g1 w h := gridWF_setCell hwfD _ _ _
  have hex1 : cellAt g1 ex.1 ex.2 = false := cellAt_setCell_self_wf hwfD hexw hexh2 false
  have hst1 : cellAt g1 start.1 start.2 = false :=
    cellAt_setCell_false_mono _ _ _ _ _ hOSr.1
  have hreach1 : ∀ c ∈ d.visited, Reaches g1 start c := fun c hc =>
    reaches_mono (fun x y hx => cellAt_setCell_false_mono _ _ _ _ _ hx)
      (hinvD.2.2.1 c hc).2
  have hmain : cellAt (if d.exitReached then g1
        else pathGo ex (w + h) (findNearest g1 d.visited ex w h) g1) start.1 start.2 = false ∧
      cellAt (if d.exitReached then g1
        else pathGo ex (w + h) (findNearest g1 d.visited ex w h) g1) ex.1 ex.2 = false ∧
      Reaches (if d.exitReached then g1
        else pathGo ex (w + h) (findNearest g1 d.visited ex w h) g1) start ex := by
    by_cases her : d.exitReached = true
    · rw [if_pos her]
      refine ⟨hst1, hex1, ?_⟩
      obtain ⟨c, hcv, hct⟩ := hinvD.2.2.2.2.2 her
      simp only [exitTouchCheck, decide_eq_true_eq] at hct
      rcases hct with hceq | ⟨he1, he2, he3⟩ | ⟨he1, he2, he3⟩
      · rw [← hceq]
        exact hreach1 c hcv
      · have hadj : AdjCell c ex := Or.inl ⟨he1, Or.inr (by omega)⟩
        exact (hreach1 c hcv).tail ⟨hadj, hex1⟩
      · have hadj : AdjCell c ex := Or.inr ⟨he3, Or.inr (by omega)⟩
        exact (hreach1 c hcv).tail ⟨hadj, hex1⟩
    · rw [Bool.not_eq_true] at her
      rw [her]
      simp only [Bool.false_eq_true, if_false]
      have hcand : ∃ c ∈ interiorCells w h, cellAt g1 c.1 c.2 = false ∧ c ∈ d.visited :=
        ⟨start, mem_interiorCells.mpr ⟨hsb.1, hsb.2.1, hsb.2.2.1, hsb.2.2.2⟩,
          hst1, hstart_mem⟩
      obtain ⟨hno, hnv, hni⟩ := @findNearest_spec g1 d.visited ex w h hcand
      have hnb := mem_interiorCells.mp hni
      obtain ⟨hwf2, hmono2, hreach2⟩ := pathGo_spec w h ex hexw hexh2 (w + h)
        (findNearest g1 d.visited ex w h) g1 hwf1 (by omega) (by omega) (by omega)
      refine ⟨hmono2 _ _ hst1, hmono2 _ _ hex1, ?_⟩
      exact Relation.ReflTransGen.trans
        (reaches_mono hmono2 (hreach1 _ hnv)) hreach2
  have hsub3 : ∀ x y, cellAt (if d.exitReached then g1
      else pathGo ex (w + h) (findNearest g1 d.visited ex w h) g1) x y = false →
      cellAt (clearExitAdjacent w h ex (setCell (if d.exitReached then g1
        else pathGo ex (w + h) (findNearest g1 d.visited ex w h) g1) ex.1 ex.2 false))
        x y = false :=
    fun x y hx => clearExitAdjacent_mono _ _ (cellAt_setCell_false_mono _ _ _ _ _ hx)
  exact ⟨hsub3 _ _ hmain.1, hsub3 _ _ hmain.2.1, reaches_mono hsub3 hmain.2.2⟩

/-- C1 witness: the connectivity statement instantiated at a concrete
5×5 maze. -/
theorem c1_maze_connectivity_witness :
    cellAt (mazeNew 5 5 0).cells (mazeNew 5 5 0).start.1 (mazeNew 5 5 0).start.2 = false ∧
    cellAt (mazeNew 5 5 0).cells (mazeNew 5 5 0).exit.1 (mazeNew 5 5 0).exit.2 = false ∧
    Reaches (mazeNew 5 5 0).cells (mazeNew 5 5 0).start (mazeNew 5 5 0).exit :=
  c1_maze_connectivity 5 5 0 (by decide) (by decide)

/-! ## Claim C4: border walls -/

theorem scanFold_snd_pos (g : List (List Bool)) (visited : List (ℕ × ℕ))
    (ex : ℕ × ℕ) :
    ∀ (l : List (ℕ × ℕ)) (acc : Option ℤ × (ℕ × ℕ)),
      (∀ c ∈ l, 1 ≤ c.1 ∧ 1 ≤ c.2) → 1 ≤ acc.2.1 → 1 ≤ acc.2.2 →
      1 ≤ (l.foldl (scanStep g visited ex) acc).2.1 ∧
      1 ≤ (l.foldl (scanStep g visited ex) acc).2.2 := by
  intro l
  induction l with
  | nil =>
    intro acc _ h1 h2
    exact ⟨h1, h2⟩
  | cons c t ih =>
    intro acc hall h1 h2
    rw [List.foldl_cons]
    have hc := hall c (List.mem_cons_self _ _)
    have hall' : ∀ d ∈ t, 1 ≤ d.1 ∧ 1 ≤ d.2 :=
      fun d hd => hall d (List.mem_cons_of_mem _ hd)
    have hstep : 1 ≤ (scanStep g visited ex acc c).2.1 ∧
        1 ≤ (scanStep g visited ex acc c).2.2 := by
      unfold scanStep
      split_ifs with hcond
      · rcases hacc : acc.1 with - | m
        · exact ⟨hc.1, hc.2⟩
        · dsimp only
          split_ifs with hlt
          · exact ⟨hc.1, hc.2⟩
          · exact ⟨h1, h2⟩
      · exact ⟨h1, h2⟩
    exact ih _ hall' hstep.1 hstep.2

theorem findNearest_pos (g : List (List Bool)) (visited : List (ℕ × ℕ))
    (ex : ℕ × ℕ) (w h : ℕ) :
    1 ≤ (findNearest g visited ex w h).1 ∧ 1 ≤ (findNearest g visited ex w h).2 := by
  unfold findNearest
  refine scanFold_snd_pos g visited ex (interiorCells w h) (none, (1, 1))
    (fun c hc => ?_) (Nat.le_refl 1) (Nat.le_refl 1)
  have hb := mem_interiorCells.mp hc
  exact ⟨hb.1, hb.2.2.1⟩

theorem pathGo_wf {w h : ℕ} (ex : ℕ × ℕ) :
    ∀ k (c : ℕ × ℕ) (g : List (List Bool)),
      GridWF g w h → GridWF (pathGo ex k c g) w h := by
  intro k
  induction k with
  | zero =>
    intro c g hwf
    rw [pathGo]
    exact hwf
  | succ k ih =>
    intro c g hwf
    rw [pathGo]
    by_cases hce : c = ex
    · rw [if_pos hce]
      exact hwf
    · rw [if_neg hce]
      by_cases hne2 : pathNext ex c = c
      · rw [if_pos hne2]
        exact hwf
      · rw [if_neg hne2]
        exact ih _ _ (gridWF_setCell hwf _ _ _)

set_option maxRecDepth 40000 in
/-- C4 (amended): for every maze produced by `Maze::new` with
`width, height ≥ 5` (over every possible entropy seed), the exit lies
on the outer border and is non-wall, every top-row cell other than the
exit is a wall, and — whenever the exit is not on the left edge — the
entire left column is wall.  The original claim that the exit is the
only boundary opening is false: the carving step of 2 can land on the
bottom row (or right column) when the corresponding dimension is odd,
and the fallback connection path may open further border cells. -/
theorem c4_border_walls (w h seed : ℕ) (hw : 5 ≤ w) (hh : 5 ≤ h) :
    ((mazeNew w h seed).exit.1 = 0 ∨ (mazeNew w h seed).exit.1 = w - 1 ∨
      (mazeNew w h seed).exit.2 = 0 ∨ (mazeNew w h seed).exit.2 = h - 1) ∧
    cellAt (mazeNew w h seed).cells (mazeNew w h seed).exit.1
      (mazeNew w h seed).exit.2 = false ∧
    (∀ x, (x, 0) ≠ (mazeNew w h seed).exit →
      cellAt (mazeNew w h seed).cells x 0 = true) ∧
    ((mazeNew w h seed).exit.1 ≠ 0 →
      ∀ y, cellAt (mazeNew w h seed).cells 0 y = true) := by
  rw [mazeNew_cells, mazeNew_exit, postDfs_eq]
  have hexsh := pickExit_shape w h seed hw hh
  set ex := (pickExit w h seed).1 with hexdef
  set s1 := (pickExit w h seed).2 with hs1def
  set start := (selectStart w h ex s1).1 with hstdef
  have hsb : 1 ≤ start.1 ∧ start.1 ≤ w - 2 ∧ 1 ≤ start.2 ∧ start.2 ≤ h - 2 := by
    rw [hstdef]
    exact selectStart_bounds w h ex hw hh s1
  have hexw : ex.1 < w := by
    rcases hexsh with ⟨-, -, hx⟩ | ⟨hx, -, -⟩ | ⟨-, -, hx⟩ | ⟨hx, -, -⟩ <;> omega
  have hexh2 : ex.2 < h := by
    rcases hexsh with ⟨hx, -, -⟩ | ⟨-, -, hx⟩ | ⟨hx, -, -⟩ | ⟨-, -, hx⟩ <;> omega
  set d := mazeDfsState w h seed with hddef
  have hinv0 := dfsInit_inv w h start ex (selectStart w h ex s1).2 hw hh
    hsb.1 hsb.2.1 hsb.2.2.1 hsb.2.2.2
  have hframes : DfsInv w h start ex d ∧
      (∀ x, cellAt d.grid x 0
        = cellAt (dfsInitState w h start (selectStart w h ex s1).2).grid x 0) ∧
      (∀ y, cellAt d.grid 0 y
        = cellAt (dfsInitState w h start (selectStart w h ex s1).2).grid 0 y) :=
    dfsGo_inv_frame w h start ex (2 * (w * h) + 2) _ hinv0
  have hwfD : GridWF d.grid w h := hframes.1.1
  set g1 := setCell d.grid ex.1 ex.2 false with hg1def
  have hwf1 : GridWF g1 w h := gridWF_setCell hwfD _ _ _
  set nst := findNearest g1 d.visited ex w h with hnstdef
  have hnpos : 1 ≤ nst.1 ∧ 1 ≤ nst.2 := by
    rw [hnstdef]
    exact findNearest_pos g1 d.visited ex w h
  have hinit0 : ∀ x' y', ¬(x' = start.1 ∧ y' = start.2) →
      cellAt (dfsInitState w h start (selectStart w h ex s1).2).grid x' y' = true := by
    intro x' y' hne
    unfold dfsInitState
    rw [cellAt_setCell_frame _ _ _ _ _ _ hne]
    exact cellAt_replicate_true w h x' y'
  have hwf2 : GridWF (if d.exitReached then g1
      else pathGo ex (w + h) nst g1) w h := by
    by_cases her : d.exitReached = true
    · rw [if_pos her]
      exact hwf1
    · rw [Bool.not_eq_true] at her
      rw [her]
      simp only [Bool.false_eq_true, if_false]
      exact pathGo_wf ex (w + h) nst g1 hwf1
  refine ⟨by rcases hexsh with ⟨hx, -, -⟩ | ⟨hx, -, -⟩ | ⟨hx, -, -⟩ | ⟨hx, -, -⟩ <;> omega,
    ?_, ?_, ?_⟩
  · exact clearExitAdjacent_mono _ _ (cellAt_setCell_self_wf hwf2 hexw hexh2 false)
  · intro x hxne
    rw [clearExitAdjacent_frame_row0 hh]
    have hxne' : ¬(x = ex.1 ∧ 0 = ex.2) := by
      rintro ⟨he1, he2⟩
      exact hxne (Prod.ext he1 he2)
    rw [cellAt_setCell_frame _ _ _ _ _ _ hxne']
    have hG2row : cellAt (if d.exitReached then g1
        else pathGo ex (w + h) nst g1) x 0 = cellAt g1 x 0 := by
      by_cases her : d.exitReached = true
      · rw [if_pos her]
      · rw [Bool.not_eq_true] at her
        rw [her]
        simp only [Bool.false_eq_true, if_false]
        exact pathGo_frame_row0 ex (w + h) nst g1 x (Or.inl hnpos.2) hxne
    rw [hG2row, hg1def, cellAt_setCell_frame _ _ _ _ _ _ hxne', hframes.2.1 x]
    exact hinit0 x 0 (by omega)
  · intro hexne y
    rw [clearExitAdjacent_frame_col0 hw hexne]
    have hyne' : ¬((0 : ℕ) = ex.1 ∧ y = ex.2) := by
      rintro ⟨he1, -⟩
      exact hexne he1.symm
    rw [cellAt_setCell_frame _ _ _ _ _ _ hyne']
    have hG2col : cellAt (if d.exitReached then g1
        else pathGo ex (w + h) nst g1) 0 y = cellAt g1 0 y := by
      by_cases her : d.exitReached = true
      · rw [if_pos her]
      · rw [Bool.not_eq_true] at her
        rw [her]
        simp only [Bool.false_eq_true, if_false]
        exact pathGo_frame_col0 ex hexne (w + h) nst g1 y hnpos.1
    rw [hG2col, hg1def, cellAt_setCell_frame _ _ _ _ _ _ hyne', hframes.2.2 y]
    exact hinit0 0 y (by omega)

/-- C4 witness: the amended border statement instantiated at a concrete
5×5 maze. -/
theorem c4_border_walls_witness :
    ((mazeNew 5 5 0).exit.1 = 0 ∨ (mazeNew 5 5 0).exit.1 = 5 - 1 ∨
      (mazeNew 5 5 0).exit.2 = 0 ∨ (mazeNew 5 5 0).exit.2 = 5 - 1) ∧
    cellAt (mazeNew 5 5 0).cells (mazeNew 5 5 0).exit.1
      (mazeNew 5 5 0).exit.2 = false ∧
    (∀ x, (x, 0) ≠ (mazeNew 5 5 0).exit →
      cellAt (mazeNew 5 5 0).cells x 0 = true) ∧
    ((mazeNew 5 5 0).exit.1 ≠ 0 →
      ∀ y, cellAt (mazeNew 5 5 0).cells 0 y = true) :=
  c4_border_walls 5 5 0 (by decide) (by decide)

set_option maxRecDepth 16000 in
/-- C4 counterexample to the original claim: the 5×5 maze generated
from seed 4 has its exit at `(4, 1)` on the right edge, yet the
bottom-row border cell `(1, 4)` is also open — the border has more
than one opening. -/
theorem c4_border_walls_counterexample :
    (mazeNew 5 5 4).exit = (4, 1) ∧
    ((1, 4) : ℕ × ℕ) ≠ (mazeNew 5 5 4).exit ∧
    cellAt (mazeNew 5 5 4).cells 1 4 = false := by
  refine ⟨?_, ?_, ?_⟩ <;> with_unfolding_all decide

end MatrixMaze
